import Mathlib

/-!
A shallow embedding of the vdom repository's `src/index.ts`.

JS objects live in an explicit heap: element nodes are keyed by `Nat` ids in
`DomState.nodes`, and — because `cloneNode` shares the `attributes` object
between clone and original — attribute records are themselves heap cells keyed
by `Nat` ids in `DomState.attrs`.  A single `VirtualDOM` instance is modelled
by the `directChildren` / `domChildren` / `notifications` fields of the state
(every element's `parentDocument` is that one tree, which is all the claims
need).  Tree-change listeners are modelled by the `notifications` log: the
source's `_notifyTreeChange` invokes each listener with `(current, snapshot)`,
which we record as an appended `(currentId, snapshotId)` pair.

Recursion over the heap (deep cloning, pre-order traversal) is graph recursion
in JS; here it takes an explicit fuel argument.  All theorems about fuelled
definitions either hold for every fuel or carry a well-formedness hypothesis
(`wfN`) saying the fuel covers the node's depth.
-/

namespace VDom

/-- Heap lookup: first binding wins (updates are modelled by prepending). -/
def hLookup {α : Type} : List (Nat × α) → Nat → Option α
  | [], _ => none
  | (k, v) :: h, i => if i = k then some v else hLookup h i

/-- Heap update by shadowing. -/
def hSet {α : Type} (h : List (Nat × α)) (k : Nat) (v : α) : List (Nat × α) :=
  (k, v) :: h

/-- JS object read: `obj[name]`, `undefined` becomes `none`. -/
def recGet : List (String × String) → String → Option String
  | [], _ => none
  | (k, v) :: m, n => if n = k then some v else recGet m n

/-- JS `hasOwnProperty`. -/
def recHas : List (String × String) → String → Bool
  | [], _ => false
  | (k, _) :: m, n => if n = k then true else recHas m n

/-- JS object write: update in place if present (keys are unique), else append
at the end (JS objects keep insertion order). -/
def recSet : List (String × String) → String → String → List (String × String)
  | [], n, w => [(n, w)]
  | (k, v) :: m, n, w => if n = k then (k, w) :: m else (k, v) :: recSet m n w

/-- JS `delete obj[name]`. -/
def recDelete (m : List (String × String)) (n : String) : List (String × String) :=
  m.filter (fun p => !(p.1 = n : Bool))

/-- First index of `x`, if present. -/
def natIdx : List Nat → Nat → Option Nat
  | [], _ => none
  | a :: as, x => if a = x then some 0 else (natIdx as x).map (· + 1)

/-- JS `Array.prototype.indexOf`: first index, or `-1` when absent. -/
def jsIndexOf (l : List Nat) (x : Nat) : Int :=
  match natIdx l x with
  | some i => (i : Int)
  | none => -1

/-- JS `splice` start-index normalisation: negative indices count from the
end, clamped to `0`; positive ones are clamped to the length. -/
def jsActualStart (len : Nat) (start : Int) : Nat :=
  if start < 0 then len - min start.natAbs len else min start.toNat len

/-- JS `arr.splice(start, cnt)` (the removal part). -/
def jsSpliceRemove (l : List Nat) (start : Int) (cnt : Nat) : List Nat :=
  let a := jsActualStart l.length start
  l.take a ++ l.drop (a + cnt)

/-- JS `arr.splice(start, 0, x)`. -/
def jsSpliceInsert (l : List Nat) (start : Int) (x : Nat) : List Nat :=
  let a := jsActualStart l.length start
  l.take a ++ x :: l.drop a

/-- In-bounds list update. -/
def listSet : List Nat → Nat → Nat → List Nat
  | [], _, _ => []
  | _ :: xs, 0, v => v :: xs
  | x :: xs, i + 1, v => x :: listSet xs i v

/-- JS `arr[i] = v` for an integer index: a negative index only creates an
object property (the array is unchanged); `i = length` appends; in-bounds
updates. (Indices beyond the length would create holes; they never arise.) -/
def jsSetAt (l : List Nat) (i : Int) (v : Nat) : List Nat :=
  if i < 0 then l
  else if i.toNat < l.length then listSet l i.toNat v
  else if i.toNat = l.length then l ++ [v]
  else l

/-- One `VirtualElement` record.  `parent` mirrors the source's
`parent?:VirtualElement|null`: `none` is JS `undefined` (never assigned),
`some none` is JS `null`, `some (some p)` is an element reference. -/
structure Node where
  tagName : String
  attrsId : Nat
  children : List Nat
  parent : Option (Option Nat)
  isRemoved : Bool
  text : String
deriving Repr, DecidableEq

/-- The heap plus the single `VirtualDOM`'s own state.
`directChildren` and `domChildren` are the tree's `directChildren` and
`children` arrays; `notifications` logs `_notifyTreeChange` deliveries. -/
structure DomState where
  nodes : List (Nat × Node)
  attrs : List (Nat × List (String × String))
  directChildren : List Nat
  domChildren : List Nat
  notifications : List (Nat × Nat)
  nextId : Nat
  nextAttrsId : Nat
deriving Repr, DecidableEq

def emptyDom : DomState :=
  ⟨[], [], [], [], [], 0, 0⟩

def defaultNode : Node :=
  ⟨"", 0, [], none, false, ""⟩

/-- Dereference a node id (ids passed to operations always resolve in states
reachable from the API, mirroring JS method receivers). -/
def getNode (st : DomState) (n : Nat) : Node :=
  (hLookup st.nodes n).getD defaultNode

/-- The attribute record a node's `attributes` field points at. -/
def getAttrs (st : DomState) (n : Nat) : List (String × String) :=
  (hLookup st.attrs (getNode st n).attrsId).getD []

def setNode (st : DomState) (n : Nat) (v : Node) : DomState :=
  { st with nodes := hSet st.nodes n v }

/-- `VirtualDOM.createElement`: `new VirtualElement(tagName, this)`; the
constructor initialises `attributes = {class:""}`, `children = []`, leaves
`parent` undefined and `$isRemoved` false. -/
def createElement (st : DomState) (tag : String) : DomState × Nat :=
  let aid := st.nextAttrsId
  let nid := st.nextId
  ({ st with
      attrs := hSet st.attrs aid [("class", "")],
      nodes := hSet st.nodes nid ⟨tag, aid, [], none, false, ""⟩,
      nextId := nid + 1,
      nextAttrsId := aid + 1 }, nid)

/-- `VirtualDOM._notifyTreeChange(e, e2)`: every registered listener is called
with `(e, e2)`; we log the delivery. -/
def notifyTreeChange (st : DomState) (cur snap : Nat) : DomState :=
  { st with notifications := st.notifications ++ [(cur, snap)] }

/-- `VirtualDOM.appendChild`: no-op when `child.$isRemoved`; else push onto
`directChildren` and set `child.parent = null`. -/
def domAppendChild (st : DomState) (c : Nat) : DomState :=
  if (getNode st c).isRemoved then st
  else
    let st1 := { st with directChildren := st.directChildren ++ [c] }
    setNode st1 c { getNode st1 c with parent := some none }

/-- `VirtualDOM.insertBefore`: no-op when removed; else
`directChildren.splice(indexOf(reference), 0, child)` — note the `-1` index
when the reference is absent. -/
def domInsertBefore (st : DomState) (c ref : Nat) : DomState :=
  if (getNode st c).isRemoved then st
  else { st with
    directChildren := jsSpliceInsert st.directChildren (jsIndexOf st.directChildren ref) c }

/-- `VirtualDOM.removeChild`: splice out of `directChildren`, else out of
`children`, else throw; on success set `$isRemoved = true`.  The `Option
String` result is the thrown error message, if any. -/
def domRemoveChild (st : DomState) (e : Nat) : DomState × Option String :=
  match natIdx st.directChildren e with
  | some i =>
    let st1 := { st with directChildren := jsSpliceRemove st.directChildren (i : Int) 1 }
    (setNode st1 e { getNode st1 e with isRemoved := true }, none)
  | none =>
    match natIdx st.domChildren e with
    | none => (st, some ("Element not found."))
    | some j =>
      let st1 := { st with domChildren := jsSpliceRemove st.domChildren (j : Int) 1 }
      (setNode st1 e { getNode st1 e with isRemoved := true }, none)

/-- `VirtualDOM.replaceChild`: no-op when the new child is removed; replace in
place in whichever of the two arrays holds `oldChild`, else throw. -/
def domReplaceChild (st : DomState) (c old : Nat) : DomState × Option String :=
  if (getNode st c).isRemoved then (st, none)
  else
    match natIdx st.directChildren old with
    | some i => ({ st with directChildren := listSet st.directChildren i c }, none)
    | none =>
      match natIdx st.domChildren old with
      | some j => ({ st with domChildren := listSet st.domChildren j c }, none)
      | none => (st, some ("Cannot find child."))

/-- `VirtualDOM.querySelectorAll`: filter `directChildren` by tag; only when
that is empty, filter `children`. -/
def domQuerySelectorAll (st : DomState) (sel : String) : List Nat :=
  let check := st.directChildren.filter (fun e => (getNode st e).tagName = sel)
  if 0 < check.length then check
  else st.domChildren.filter (fun e => (getNode st e).tagName = sel)

/-- `VirtualDOM.querySelector` (the source duplicates the two-tier logic). -/
def domQuerySelector (st : DomState) (sel : String) : Option Nat :=
  let check := st.directChildren.filter (fun e => (getNode st e).tagName = sel)
  if 0 < check.length then check.head?
  else (st.domChildren.filter (fun e => (getNode st e).tagName = sel)).head?

/-- `VirtualDOM.getElementById`: `e.attributes.id === id`, two-tier, first hit. -/
def domGetElementById (st : DomState) (id : String) : Option Nat :=
  let check := st.directChildren.filter (fun e => recGet (getAttrs st e) ("id") = some id)
  if 0 < check.length then check.head?
  else (st.domChildren.filter (fun e => recGet (getAttrs st e) ("id") = some id)).head?

/-- `VirtualDOM.getElementsByClassName`: `e.attributes.class === className`
(whole-string equality), two-tier. -/
def domGetElementsByClassName (st : DomState) (cls : String) : List Nat :=
  let check := st.directChildren.filter (fun e => recGet (getAttrs st e) ("class") = some cls)
  if 0 < check.length then check
  else st.domChildren.filter (fun e => recGet (getAttrs st e) ("class") = some cls)

/-! ### `VirtualElement.cloneNode`

`cloneNode` builds `new VirtualElement(tagName, parentDocument)` (allocating a
fresh `{class:""}` attribute object), then `_duringClone().setAttributes(
this.attributes)` — which assigns the clone's `attributes` field to the *same*
object as the original's (shared storage, not a copy), then copies `parent`
and the text, and when `deep` maps `cloneNode()` over the children.  The
recursion over the heap takes fuel; `cloneMany` is the sequential left-to-right
`map`. -/

/-- The constructor-plus-`setAttributes`-plus-`setText` part of one clone of
node `n`: `new VirtualElement(tagName, parentDocument)` allocates a fresh
`{class:""}` attribute object (which `setAttributes` immediately discards in
favour of the original's — note the clone's `attrsId` is `n`'s own, shared),
and `parent` and the text are copied.  The clone id is `st.nextId`. -/
def cloneAlloc (st : DomState) (n : Nat) : DomState :=
  let nd := getNode st n
  { st with
      attrs := hSet st.attrs st.nextAttrsId [("class", "")],
      nodes := hSet st.nodes st.nextId ⟨nd.tagName, nd.attrsId, [], nd.parent, false, nd.text⟩,
      nextId := st.nextId + 1,
      nextAttrsId := st.nextAttrsId + 1 }

/-- One level of the clone recursion: clone each node of the list in order
(the source's `this.children.map(e => e.cloneNode())`), threading the heap,
using `child` to clone each node's own children (the next-lower fuel level). -/
def cloneStep (child : DomState → List Nat → DomState × List Nat) :
    DomState → List Nat → DomState × List Nat
  | st, [] => (st, [])
  | st, n :: rest =>
    let nd := getNode st n
    let cid := st.nextId
    let p := child (cloneAlloc st n) nd.children
    let st3 := setNode p.1 cid ⟨nd.tagName, nd.attrsId, p.2, nd.parent, false, nd.text⟩
    let q := cloneStep child st3 rest
    (q.1, cid :: q.2)

/-- Clone each node of a list in order, to depth `f`. -/
def cloneMany : Nat → DomState → List Nat → DomState × List Nat
  | 0 => cloneStep (fun st _ => (st, []))
  | f + 1 => cloneStep (cloneMany f)

/-- `VirtualElement.cloneNode(deep = true)`. -/
def cloneNodeM (f : Nat) (st : DomState) (n : Nat) (deep : Bool) : DomState × Nat :=
  let nd := getNode st n
  let cid := st.nextId
  let st1 := cloneAlloc st n
  if deep then
    let p := cloneMany f st1 nd.children
    (setNode p.1 cid ⟨nd.tagName, nd.attrsId, p.2, nd.parent, false, nd.text⟩, cid)
  else (st1, cid)

/-! ### Element-level mutations (each clones first, then mutates, then calls
`parentDocument._notifyTreeChange(this, oldVer)`). -/

/-- `VirtualElement.setAttribute`. -/
def setAttributeM (f : Nat) (st : DomState) (n : Nat) (name value : String) : DomState :=
  let p := cloneNodeM f st n true
  let st1 := p.1
  let st2 := { st1 with
    attrs := hSet st1.attrs (getNode st1 n).attrsId (recSet (getAttrs st1 n) name value) }
  notifyTreeChange st2 n p.2

/-- `VirtualElement.getAttribute`. -/
def getAttributeM (st : DomState) (n : Nat) (name : String) : Option String :=
  recGet (getAttrs st n) name

/-- `VirtualElement.hasAttribute`. -/
def hasAttributeM (st : DomState) (n : Nat) (name : String) : Bool :=
  recHas (getAttrs st n) name

/-- `VirtualElement.removeAttribute`. -/
def removeAttributeM (f : Nat) (st : DomState) (n : Nat) (name : String) : DomState :=
  let p := cloneNodeM f st n true
  let st1 := p.1
  let st2 := { st1 with
    attrs := hSet st1.attrs (getNode st1 n).attrsId (recDelete (getAttrs st1 n) name) }
  notifyTreeChange st2 n p.2

/-- `VirtualElement.appendChild`: push onto own `children`, set
`child.parent = this`, push onto `parentDocument.children`, notify. -/
def elemAppendChild (f : Nat) (st : DomState) (n c : Nat) : DomState :=
  let p := cloneNodeM f st n true
  let st1 := p.1
  let st2 := setNode st1 n { getNode st1 n with children := (getNode st1 n).children ++ [c] }
  let st3 := setNode st2 c { getNode st2 c with parent := some (some n) }
  let st4 := { st3 with domChildren := st3.domChildren ++ [c] }
  notifyTreeChange st4 n p.2

/-- `VirtualElement.replaceChild`: throws before cloning when `oldChild` is
not among own `children`; otherwise swaps in place locally, re-parents the new
child, swaps in `parentDocument.children` (a `-1` index there writes nothing),
and notifies. -/
def elemReplaceChild (f : Nat) (st : DomState) (n c old : Nat) : DomState × Option String :=
  if old ∈ (getNode st n).children then
    let p := cloneNodeM f st n true
    let st1 := p.1
    let nd := getNode st1 n
    let st2 := setNode st1 n
      { nd with children := jsSetAt nd.children (jsIndexOf nd.children old) c }
    let st3 := setNode st2 c { getNode st2 c with parent := some (some n) }
    let st4 := { st3 with domChildren := jsSetAt st3.domChildren (jsIndexOf st3.domChildren old) c }
    (notifyTreeChange st4 n p.2, none)
  else (st, some ("Cannot find old child."))

/-- `VirtualElement.prepend`: when `this` is a direct child of the tree,
splice `element` into `directChildren` before `this` and set
`element.parent = this`; else when `this.parent` is truthy, splice into the
parent's `children` and into `parentDocument.children` at `this`'s positions
(without touching `element.parent`); else throw. -/
def elemPrepend (f : Nat) (st : DomState) (n el : Nat) : DomState × Option String :=
  let p := cloneNodeM f st n true
  let st1 := p.1
  if n ∈ st1.directChildren then
    let st2 := { st1 with
      directChildren := jsSpliceInsert st1.directChildren (jsIndexOf st1.directChildren n) el }
    let st3 := setNode st2 el { getNode st2 el with parent := some (some n) }
    (notifyTreeChange st3 n p.2, none)
  else
    match (getNode st1 n).parent with
    | some (some par) =>
      let pd := getNode st1 par
      let st2 := setNode st1 par
        { pd with children := jsSpliceInsert pd.children (jsIndexOf pd.children n) el }
      let st3 := { st2 with
        domChildren := jsSpliceInsert st2.domChildren (jsIndexOf st2.domChildren n) el }
      (notifyTreeChange st3 n p.2, none)
    | _ =>
      (st1, some ("This element has no parent DOM or a parent element."))

/-- `VirtualElement.removeChild`: splice the child out of own `children` and
out of `parentDocument.children` by `indexOf` (a `-1` index removes the last
element), set `child.$isRemoved = true`, notify.  Never throws. -/
def elemRemoveChild (f : Nat) (st : DomState) (n c : Nat) : DomState :=
  let p := cloneNodeM f st n true
  let st1 := p.1
  let nd := getNode st1 n
  let st2 := setNode st1 n
    { nd with children := jsSpliceRemove nd.children (jsIndexOf nd.children c) 1 }
  let st3 := setNode st2 c { getNode st2 c with isRemoved := true }
  let st4 := { st3 with
    domChildren := jsSpliceRemove st3.domChildren (jsIndexOf st3.domChildren c) 1 }
  notifyTreeChange st4 n p.2

/-- `VirtualElement.remove`: clone, then delegate to the tree's or the
parent's `removeChild` (or just set the flag), then notify with the clone. -/
def elemRemove (f : Nat) (st : DomState) (n : Nat) : DomState × Option String :=
  let p := cloneNodeM f st n true
  let st1 := p.1
  if n ∈ st1.directChildren then
    match domRemoveChild st1 n with
    | (st2, none) => (notifyTreeChange st2 n p.2, none)
    | (st2, some e) => (st2, some e)
  else
    match (getNode st1 n).parent with
    | some (some par) =>
      let st2 := elemRemoveChild f st1 par n
      (notifyTreeChange st2 n p.2, none)
    | _ =>
      let st2 := setNode st1 n { getNode st1 n with isRemoved := true }
      (notifyTreeChange st2 n p.2, none)

/-- `firstChild` setter: `this.children[0] = c` (an empty array grows), notify. -/
def setFirstChild (f : Nat) (st : DomState) (n c : Nat) : DomState :=
  let p := cloneNodeM f st n true
  let st1 := p.1
  let nd := getNode st1 n
  let st2 := setNode st1 n { nd with children := jsSetAt nd.children 0 c }
  notifyTreeChange st2 n p.2

/-- `lastChild` setter: `this.children[this.children.length - 1] = c`, notify. -/
def setLastChild (f : Nat) (st : DomState) (n c : Nat) : DomState :=
  let p := cloneNodeM f st n true
  let st1 := p.1
  let nd := getNode st1 n
  let st2 := setNode st1 n
    { nd with children := jsSetAt nd.children ((nd.children.length : Int) - 1) c }
  notifyTreeChange st2 n p.2

/-- `innerText` setter: clone, assign the text field, notify. -/
def setInnerText (f : Nat) (st : DomState) (n : Nat) (v : String) : DomState :=
  let p := cloneNodeM f st n true
  let st1 := p.1
  let st2 := setNode st1 n { getNode st1 n with text := v }
  notifyTreeChange st2 n p.2

/-- `textContent` setter: `this.innerText = newText`. -/
def setTextContent (f : Nat) (st : DomState) (n : Nat) (v : String) : DomState :=
  setInnerText f st n v

/-! ### Element-level queries -/

/-- One level of the wildcard walk: `r(c)` pushes `c` onto `arr` and then
runs `r` over `c.children`; the outer loop runs `r` over `this.children`.
`acc` is the array built so far; `child` walks a node's own children. -/
def preStep (child : DomState → List Nat → List Nat → List Nat) :
    DomState → List Nat → List Nat → List Nat
  | _, acc, [] => acc
  | st, acc, c :: rest => preStep child st (child st (acc ++ [c]) (getNode st c).children) rest

/-- The wildcard branch's accumulator recursion, to depth `f`. -/
def preAux : Nat → DomState → List Nat → List Nat → List Nat
  | 0 => preStep (fun _ acc _ => acc)
  | f + 1 => preStep (preAux f)

/-- One level of the spec-side pre-order listing. -/
def specStep (child : DomState → List Nat → List Nat) : DomState → List Nat → List Nat
  | _, [] => []
  | st, c :: rest => (c :: child st (getNode st c).children) ++ specStep child st rest

/-- Modelled from the spec: the pre-order listing of all descendants ("the
`"*"` wildcard returns every descendant via pre-order traversal"), written
compositionally rather than with an accumulator. -/
def specPre : Nat → DomState → List Nat → List Nat
  | 0 => specStep (fun _ _ => [])
  | f + 1 => specStep (specPre f)

/-- `VirtualElement.querySelectorAll`: the `"*"` branch is the pre-order
accumulator walk; the non-wildcard branch filters the direct children — the
source then declares a recursive-descent helper `r` when the filter is empty
but never invokes it, so `val` is returned as the direct-children filter. -/
def elemQuerySelectorAll (f : Nat) (st : DomState) (n : Nat) (sel : String) : List Nat :=
  if sel = "*" then preAux f st [] (getNode st n).children
  else (getNode st n).children.filter (fun e => (getNode st e).tagName = sel)

/-- `VirtualElement.querySelector`: `this.querySelectorAll(selector)[0]`. -/
def elemQuerySelector (f : Nat) (st : DomState) (n : Nat) (sel : String) : Option Nat :=
  (elemQuerySelectorAll f st n sel).head?

/-! ### `dataset` -/

/-- Split a character list on a separator (the behaviour of JS
`String.prototype.split` on a single-character separator). -/
def splitOnChar (c : Char) : List Char → List (List Char)
  | [] => [[]]
  | a :: rest =>
    let r := splitOnChar c rest
    if a = c then [] :: r
    else (a :: r.headD []) :: r.tail

/-- `term[0].toUpperCase() + term.slice(1)`.  (JS throws on an empty term;
such keys do not arise in the claims.) -/
def capTerm : List Char → List Char
  | [] => []
  | a :: r => a.toUpper :: r

/-- Join the split terms back, capitalising every term except the first. -/
def joinCamel : List (List Char) → List Char
  | [] => []
  | t :: ts => t ++ (ts.map capTerm).flatten

/-- The source's camel-casing of a stripped `data-` key: split on dashes,
upper-case the first character of every term but the first, join. -/
def toCamel (k : String) : String :=
  String.mk (joinCamel (splitOnChar ('-') k.data))

/-- `ky.startsWith("data-")`. -/
def strStarts (s p : String) : Bool :=
  p.data.isPrefixOf s.data

/-- `ky.slice(5)`. -/
def strDrop5 (s : String) : String :=
  String.mk (s.data.drop 5)

/-- The attribute keys of `n` with the `data-` lead, in insertion order (the
getter's `for (const ky in this.attributes)` loop). -/
def dataKeys (st : DomState) (n : Nat) : List String :=
  ((getAttrs st n).map (fun p => p.1)).filter (fun k => strStarts k ("data-"))

/-- The original attribute key a `dataset` property name resolves to.  The
getter calls `Object.defineProperty` once per matching key, so the *last*
matching key's accessor pair wins. -/
def lastKeyFor (st : DomState) (n : Nat) (name : String) : Option String :=
  ((dataKeys st n).filter (fun ky => toCamel (strDrop5 ky) = name)).getLast?

/-- Reading `dataset.name`: the accessor returns `getAttribute(ky)` for the
original full key `ky` (names never defined read as `undefined`). -/
def datasetGet (st : DomState) (n : Nat) (name : String) : Option String :=
  match lastKeyFor st n name with
  | some ky => getAttributeM st n ky
  | none => none

/-- Writing `dataset.name = v`: the accessor calls `setAttribute(ky, v)` on
the original full key (a write to an undefined name only touches the
temporary object, leaving the element unchanged). -/
def datasetSet (f : Nat) (st : DomState) (n : Nat) (name v : String) : DomState :=
  match lastKeyFor st n name with
  | some ky => setAttributeM f st n ky v
  | none => st

/-! ### Events

`dispatchEvent` never touches the tree, so events are modelled standalone.
A listener callback is an arbitrary transformer of the event value (the
source's callbacks may mutate the event, e.g. `stopPropagation`). -/

/-- `VirtualEvent`: `target` is a node id, assigned at dispatch. -/
structure VEvent where
  type : String
  bubbles : Bool
  defaultPrevented : Bool
  target : Option Nat
  trusted : Bool

/-- The `VirtualEvent` constructor with its option defaults. -/
def mkEvent (name : String) (trusted : Option Bool) (bubbles : Option Bool) : VEvent :=
  ⟨name, bubbles.getD true, false, none, trusted.getD false⟩

/-- A node's `eventListeners` table: event type to registered callbacks, in
registration order. -/
def Listeners := List (String × List (VEvent → VEvent))

def strLookup : List (String × List (VEvent → VEvent)) → String → Option (List (VEvent → VEvent))
  | [], _ => none
  | (k, v) :: h, s => if s = k then some v else strLookup h s

/-- `addEventListener`: create the per-type list when absent, push the
callback at the end. -/
def addListener (ls : List (String × List (VEvent → VEvent))) (name : String)
    (cb : VEvent → VEvent) : List (String × List (VEvent → VEvent)) :=
  match ls with
  | [] => [(name, [cb])]
  | (k, v) :: h => if name = k then (k, v ++ [cb]) :: h else (k, v) :: addListener h name cb

/-- The dispatch loop: run each callback in order; after each, stop when
`event.bubbles` is false.  Also returns how many callbacks executed. -/
def dispatchList : VEvent → List (VEvent → VEvent) → VEvent × Nat
  | ev, [] => (ev, 0)
  | ev, cb :: rest =>
    let ev1 := cb ev
    if ev1.bubbles then
      let p := dispatchList ev1 rest
      (p.1, p.2 + 1)
    else (ev1, 1)

/-- `VirtualElement.dispatchEvent`: set `event.target = this`, then iterate
`eventListeners[event.type]` (a `for..of` over `undefined` throws: modelled
as `none`). -/
def dispatchEvent (n : Nat) (ls : List (String × List (VEvent → VEvent)))
    (ev : VEvent) : Option (VEvent × Nat) :=
  let ev1 := { ev with target := some n }
  match strLookup ls ev1.type with
  | none => none
  | some cbs => some (dispatchList ev1 cbs)

/-- Running a prefix of the callbacks, for stating dispatch order properties. -/
def applyCbs (ev : VEvent) (cbs : List (VEvent → VEvent)) : VEvent :=
  cbs.foldl (fun e c => c e) ev

/-! ### The three node states of the membership invariant (claim C2's words) -/

/-- "`parentRef` unset": never assigned (`undefined`) or assigned `null`. -/
def parentUnset (st : DomState) (n : Nat) : Bool :=
  match (getNode st n).parent with
  | none => true
  | some none => true
  | some (some _) => false

/-- Top-level: present in `topLevelNodes` (`directChildren`) with `parentRef`
unset. -/
def topLevelState (st : DomState) (n : Nat) : Bool :=
  decide (n ∈ st.directChildren) && parentUnset st n

/-- Attached: present in `allDescendants` (the tree's `children`) with
`parentRef` set to a parent element. -/
def attachedState (st : DomState) (n : Nat) : Bool :=
  decide (n ∈ st.domChildren) && !parentUnset st n

/-- Removed: present in neither collection. -/
def removedState (st : DomState) (n : Nat) : Bool :=
  !decide (n ∈ st.directChildren) && !decide (n ∈ st.domChildren)

/-- Exactly one of the three states holds. -/
def exactlyOneState (st : DomState) (n : Nat) : Bool :=
  (topLevelState st n && !attachedState st n && !removedState st n) ||
  (!topLevelState st n && attachedState st n && !removedState st n) ||
  (!topLevelState st n && !attachedState st n && removedState st n)

/-! ### Attribute-free value view of a node, with fuel, plus well-formedness -/

/-- The structural value of a node: tag, text and children values.  The
attribute record is deliberately not part of this view (its storage is shared
between a node and its clones, so it is tracked separately by `attrsId`). -/
inductive AVal where
  | mk (tag : String) (text : String) (children : List AVal)

/-- One level of the value view. -/
def avalStep (child : DomState → Nat → AVal) (st : DomState) (n : Nat) : AVal :=
  AVal.mk (getNode st n).tagName (getNode st n).text ((getNode st n).children.map (child st))

/-- Read the value of a node to depth `f`. -/
def aval : Nat → DomState → Nat → AVal
  | 0 => fun st n => AVal.mk (getNode st n).tagName (getNode st n).text []
  | f + 1 => avalStep (aval f)

/-- One level of the well-formedness check. -/
def wfStep (child : DomState → Nat → Bool) (st : DomState) (n : Nat) : Bool :=
  n < st.nextId && (hLookup st.nodes n).isSome && (getNode st n).children.all (child st)

/-- Fuel `f` covers node `n`: the id is allocated (below `nextId`), resolves
in the heap, and the children are covered at depth `f - 1`. -/
def wfN : Nat → DomState → Nat → Bool
  | 0 => fun _ _ => false
  | f + 1 => wfStep (wfN f)

/-- One level of the id-range check. -/
def rangeStep (q b : Nat) (child : DomState → Nat → Bool) (st : DomState) (n : Nat) : Bool :=
  q ≤ n && n < b && (getNode st n).children.all (child st)

/-- Every node id reachable from `n` within depth `f` lies in `[q, b)`.
Used to show mutations of old ids cannot disturb a freshly cloned subtree. -/
def rangeN (q b : Nat) : Nat → DomState → Nat → Bool
  | 0 => fun _ n => q ≤ n && n < b
  | f + 1 => rangeStep q b (rangeN q b f)

/-! ## Basic lemmas about the heap and the JS array primitives -/

@[simp] theorem hLookup_hSet_self {α : Type} (h : List (Nat × α)) (k : Nat) (v : α) :
    hLookup (hSet h k v) k = some v := by
  simp [hLookup, hSet]

theorem hLookup_hSet_ne {α : Type} (h : List (Nat × α)) {i k : Nat} (v : α) (hne : i ≠ k) :
    hLookup (hSet h k v) i = hLookup h i := by
  simp [hLookup, hSet, hne]

@[simp] theorem getNode_setNode_self (st : DomState) (n : Nat) (v : Node) :
    getNode (setNode st n v) n = v := by
  simp [getNode, setNode]

theorem getNode_setNode_ne (st : DomState) {i n : Nat} (v : Node) (hne : i ≠ n) :
    getNode (setNode st n v) i = getNode st i := by
  simp [getNode, setNode, hLookup_hSet_ne _ _ hne]

theorem natIdx_lt_length {l : List Nat} {x i : Nat} (h : natIdx l x = some i) :
    i < l.length := by
  induction l generalizing i with
  | nil => simp [natIdx] at h
  | cons a as ih =>
    by_cases hax : a = x
    · simp [natIdx, hax] at h
      simp [List.length_cons]
      omega
    · simp [natIdx, hax] at h
      obtain ⟨j, hj, rfl⟩ := h
      have := ih hj
      simpa using Nat.succ_lt_succ this

theorem natIdx_eq_none_iff {l : List Nat} {x : Nat} :
    natIdx l x = none ↔ x ∉ l := by
  induction l with
  | nil => simp [natIdx]
  | cons a as ih =>
    by_cases hax : a = x
    · simp [natIdx, hax]
    · simp [natIdx, hax, ih, Option.map_eq_none]
      intro h
      exact fun hx => hax hx.symm

theorem natIdx_isSome_of_mem {l : List Nat} {x : Nat} (h : x ∈ l) :
    ∃ i, natIdx l x = some i := by
  cases hn : natIdx l x with
  | none => exact absurd (natIdx_eq_none_iff.mp hn) (by simp [h])
  | some i => exact ⟨i, rfl⟩

/-- The decomposition at a found index: the element sits at position `i` and
does not occur earlier. -/
theorem natIdx_decomp {l : List Nat} {x i : Nat} (h : natIdx l x = some i) :
    l.take i ++ x :: l.drop (i + 1) = l ∧ x ∉ l.take i := by
  induction l generalizing i with
  | nil => simp [natIdx] at h
  | cons a as ih =>
    by_cases hax : a = x
    · simp [natIdx, hax] at h
      subst h
      simp [hax]
    · simp [natIdx, hax] at h
      obtain ⟨j, hj, rfl⟩ := h
      obtain ⟨h1, h2⟩ := ih hj
      constructor
      · simpa using h1
      · simp [List.take_succ_cons]
        exact ⟨fun hx => hax hx.symm, h2⟩

theorem jsActualStart_nonneg_le {len : Nat} {i : Nat} (h : i ≤ len) :
    jsActualStart len (i : Int) = i := by
  unfold jsActualStart
  rw [if_neg (by omega)]
  rw [Int.toNat_ofNat]
  omega

theorem jsActualStart_neg_one (len : Nat) :
    jsActualStart len (-1) = len - 1 := by
  unfold jsActualStart
  rw [if_pos (by omega)]
  have h1 : ((-1 : Int)).natAbs = 1 := rfl
  rw [h1]
  omega

/-- Splicing in at a valid index is a take/insert/drop. -/
theorem jsSpliceInsert_at {l : List Nat} {i : Nat} (h : i ≤ l.length) (x : Nat) :
    jsSpliceInsert l (i : Int) x = l.take i ++ x :: l.drop i := by
  simp [jsSpliceInsert, jsActualStart_nonneg_le h]

theorem jsSpliceInsert_neg_one (l : List Nat) (x : Nat) :
    jsSpliceInsert l (-1) x = l.take (l.length - 1) ++ x :: l.drop (l.length - 1) := by
  simp [jsSpliceInsert, jsActualStart_neg_one]

/-- Removing one element at a valid index is a take/drop around it. -/
theorem jsSpliceRemove_at {l : List Nat} {i : Nat} (h : i ≤ l.length) :
    jsSpliceRemove l (i : Int) 1 = l.take i ++ l.drop (i + 1) := by
  simp [jsSpliceRemove, jsActualStart_nonneg_le h]

/-- Removing at `-1` (the absent-`indexOf` case) drops the last element. -/
theorem jsSpliceRemove_neg_one_dropLast (l : List Nat) :
    jsSpliceRemove l (-1) 1 = l.dropLast := by
  have h0 : l.drop (l.length - 1 + 1) = [] := List.drop_eq_nil_of_le (by omega)
  simp [jsSpliceRemove, jsActualStart_neg_one, h0, List.dropLast_eq_take]

/-- The inserted element is in the spliced list. -/
theorem mem_jsSpliceInsert_self (l : List Nat) (i : Int) (x : Nat) :
    x ∈ jsSpliceInsert l i x := by
  simp [jsSpliceInsert]

/-- An element occurring at most once is gone after splicing it out at its
found index. -/
theorem not_mem_jsSpliceRemove {l : List Nat} {x i : Nat}
    (h : natIdx l x = some i) (hc : l.count x ≤ 1) :
    x ∉ jsSpliceRemove l (i : Int) 1 := by
  have hlt := natIdx_lt_length h
  obtain ⟨hdec, hnotin⟩ := natIdx_decomp h
  rw [jsSpliceRemove_at (Nat.le_of_lt hlt)]
  intro hmem
  rcases List.mem_append.mp hmem with h1 | h2
  · exact hnotin h1
  · have : 2 ≤ l.count x := by
      conv_rhs => rw [← hdec]
      rw [List.count_append]
      have : 0 < (l.take i).count x + 1 + (l.drop (i+1)).count x → True := fun _ => trivial
      have hc2 : 1 ≤ (l.drop (i + 1)).count x := List.one_le_count_iff.mpr h2
      simp [List.count_cons]
      omega
    omega

/-! ## Frame properties of cloning

Cloning only allocates fresh ids: the tree's arrays and the notification log
are untouched, and lookups of previously allocated node and attribute ids are
unchanged. -/

/-- The frame property of a child-cloner. -/
def FrameP (g : DomState → List Nat → DomState × List Nat) : Prop :=
  ∀ st l,
    (g st l).1.directChildren = st.directChildren ∧
    (g st l).1.domChildren = st.domChildren ∧
    (g st l).1.notifications = st.notifications ∧
    st.nextId ≤ (g st l).1.nextId ∧
    st.nextAttrsId ≤ (g st l).1.nextAttrsId ∧
    (∀ i, i < st.nextId → hLookup (g st l).1.nodes i = hLookup st.nodes i) ∧
    (∀ a, a < st.nextAttrsId → hLookup (g st l).1.attrs a = hLookup st.attrs a)

theorem cloneAlloc_directChildren (st : DomState) (n : Nat) :
    (cloneAlloc st n).directChildren = st.directChildren := rfl

theorem cloneAlloc_nextId (st : DomState) (n : Nat) :
    (cloneAlloc st n).nextId = st.nextId + 1 := rfl

theorem cloneAlloc_nodes_lt (st : DomState) (n : Nat) {i : Nat} (h : i < st.nextId) :
    hLookup (cloneAlloc st n).nodes i = hLookup st.nodes i := by
  show hLookup (hSet st.nodes st.nextId _) i = hLookup st.nodes i
  exact hLookup_hSet_ne _ _ (by omega)

theorem cloneAlloc_attrs_lt (st : DomState) (n : Nat) {a : Nat} (h : a < st.nextAttrsId) :
    hLookup (cloneAlloc st n).attrs a = hLookup st.attrs a := by
  show hLookup (hSet st.attrs st.nextAttrsId _) a = hLookup st.attrs a
  exact hLookup_hSet_ne _ _ (by omega)

theorem cloneStep_frame {child : DomState → List Nat → DomState × List Nat}
    (hc : FrameP child) : FrameP (cloneStep child) := by
  intro st l
  induction l generalizing st with
  | nil => simp [cloneStep]
  | cons n rest ih =>
    obtain ⟨c1, c2, c3, c4, c5, c6, c7⟩ := hc (cloneAlloc st n) (getNode st n).children
    have ha1 := cloneAlloc_directChildren st n
    have ha4 := cloneAlloc_nextId st n
    set p := child (cloneAlloc st n) (getNode st n).children with hp
    set st3 := setNode p.1 st.nextId
      ⟨(getNode st n).tagName, (getNode st n).attrsId, p.2, (getNode st n).parent, false,
        (getNode st n).text⟩ with hst3
    obtain ⟨i1, i2, i3, i4, i5, i6, i7⟩ := ih st3
    have hun : cloneStep child st (n :: rest) =
        ((cloneStep child st3 rest).1, st.nextId :: (cloneStep child st3 rest).2) := by
      simp only [cloneStep]
    rw [hun]
    have st3dc : st3.directChildren = st.directChildren := by
      rw [hst3]; simpa [setNode] using c1.trans ha1
    have st3ch : st3.domChildren = st.domChildren := by
      rw [hst3]
      simpa [setNode] using c2.trans (by rfl)
    have st3no : st3.notifications = st.notifications := by
      rw [hst3]
      simpa [setNode] using c3.trans (by rfl)
    have st3id : st.nextId ≤ st3.nextId := by
      rw [hst3]
      simp only [setNode]
      omega
    have st3aid : st.nextAttrsId ≤ st3.nextAttrsId := by
      rw [hst3]
      simp only [setNode]
      have : st.nextAttrsId ≤ (cloneAlloc st n).nextAttrsId := by
        simp [cloneAlloc]
      omega
    refine ⟨i1.trans st3dc, i2.trans st3ch, i3.trans st3no, le_trans st3id i4,
      le_trans st3aid i5, ?_, ?_⟩
    · intro i hi
      rw [i6 i (lt_of_lt_of_le hi st3id)]
      rw [hst3]
      show hLookup (hSet p.1.nodes st.nextId _) i = _
      rw [hLookup_hSet_ne _ _ (by omega)]
      rw [c6 i (by omega)]
      exact cloneAlloc_nodes_lt st n hi
    · intro a ha
      have hsa : st3.attrs = p.1.attrs := by rw [hst3]; rfl
      rw [i7 a (lt_of_lt_of_le ha st3aid), hsa,
        c7 a (by simpa [cloneAlloc] using Nat.lt_succ_of_lt ha)]
      exact cloneAlloc_attrs_lt st n ha

theorem cloneMany_frame : ∀ f, FrameP (cloneMany f) := by
  intro f
  induction f with
  | zero =>
    exact cloneStep_frame (by intro st l; simp)
  | succ f ih =>
    exact cloneStep_frame ih

theorem cloneNodeM_snd (f : Nat) (st : DomState) (n : Nat) (deep : Bool) :
    (cloneNodeM f st n deep).2 = st.nextId := by
  cases deep <;> simp [cloneNodeM]

/-- The frame facts for a single deep clone, plus the clone's own record:
it carries the original's tag, its `attrsId` (shared storage), its `parent`
and its text, and a false removal flag. -/
theorem cloneNodeM_spec (f : Nat) (st : DomState) (n : Nat) :
    (cloneNodeM f st n true).1.directChildren = st.directChildren ∧
    (cloneNodeM f st n true).1.domChildren = st.domChildren ∧
    (cloneNodeM f st n true).1.notifications = st.notifications ∧
    st.nextId < (cloneNodeM f st n true).1.nextId ∧
    (∀ i, i < st.nextId → hLookup (cloneNodeM f st n true).1.nodes i = hLookup st.nodes i) ∧
    (∀ a, a < st.nextAttrsId → hLookup (cloneNodeM f st n true).1.attrs a = hLookup st.attrs a) ∧
    (getNode (cloneNodeM f st n true).1 st.nextId).tagName = (getNode st n).tagName ∧
    (getNode (cloneNodeM f st n true).1 st.nextId).attrsId = (getNode st n).attrsId ∧
    (getNode (cloneNodeM f st n true).1 st.nextId).parent = (getNode st n).parent ∧
    (getNode (cloneNodeM f st n true).1 st.nextId).text = (getNode st n).text ∧
    (getNode (cloneNodeM f st n true).1 st.nextId).isRemoved = false := by
  obtain ⟨c1, c2, c3, c4, c5, c6, c7⟩ :=
    cloneMany_frame f (cloneAlloc st n) (getNode st n).children
  have hun : cloneNodeM f st n true =
      (setNode (cloneMany f (cloneAlloc st n) (getNode st n).children).1 st.nextId
        ⟨(getNode st n).tagName, (getNode st n).attrsId,
          (cloneMany f (cloneAlloc st n) (getNode st n).children).2, (getNode st n).parent,
          false, (getNode st n).text⟩, st.nextId) := by
    simp only [cloneNodeM, if_pos]
  rw [hun]
  have ha4 := cloneAlloc_nextId st n
  refine ⟨?_, ?_, ?_, ?_, ?_, ?_, ?_⟩
  · simpa [setNode] using c1.trans (cloneAlloc_directChildren st n)
  · simpa [setNode] using c2.trans (by rfl)
  · simpa [setNode] using c3.trans (by rfl)
  · simp only [setNode]
    omega
  · intro i hi
    show hLookup (hSet _ st.nextId _) i = _
    rw [hLookup_hSet_ne _ _ (by omega)]
    rw [c6 i (by omega)]
    exact cloneAlloc_nodes_lt st n hi
  · intro a ha
    show hLookup (cloneMany f (cloneAlloc st n) (getNode st n).children).1.attrs a = _
    rw [c7 a (by simpa [cloneAlloc] using Nat.lt_succ_of_lt ha)]
    exact cloneAlloc_attrs_lt st n ha
  · simp [setNode, getNode]

/-! ## Transfer lemmas: well-formedness, ranges and values across heap frames -/

theorem getNode_congr {st st₂ : DomState} {n : Nat}
    (h : hLookup st₂.nodes n = hLookup st.nodes n) : getNode st₂ n = getNode st n := by
  simp [getNode, h]

theorem aval_succ (f : Nat) (st : DomState) (n : Nat) :
    aval (f + 1) st n =
      AVal.mk (getNode st n).tagName (getNode st n).text
        ((getNode st n).children.map (aval f st)) := rfl

theorem wfN_succ (f : Nat) (st : DomState) (n : Nat) :
    wfN (f + 1) st n =
      (decide (n < st.nextId) && (hLookup st.nodes n).isSome &&
        (getNode st n).children.all (wfN f st)) := rfl

theorem rangeN_succ (q b f : Nat) (st : DomState) (n : Nat) :
    rangeN q b (f + 1) st n =
      (decide (q ≤ n) && decide (n < b) && (getNode st n).children.all (rangeN q b f st)) := rfl

/-- Well-formedness survives any heap change that preserves old lookups and
does not shrink `nextId`. -/
theorem wfN_frame {st st₂ : DomState} (hid : st.nextId ≤ st₂.nextId)
    (hlk : ∀ i, i < st.nextId → hLookup st₂.nodes i = hLookup st.nodes i) :
    ∀ f n, wfN f st n = true → wfN f st₂ n = true := by
  intro f
  induction f with
  | zero => intro n h; simp [wfN] at h
  | succ f ih =>
    intro n h
    rw [wfN_succ] at h ⊢
    simp only [Bool.and_eq_true, decide_eq_true_eq] at h
    obtain ⟨⟨h1, h2⟩, h3⟩ := h
    have hlkn := hlk n h1
    have hgn := getNode_congr hlkn
    simp only [Bool.and_eq_true, decide_eq_true_eq]
    refine ⟨⟨by omega, by rw [hlkn]; exact h2⟩, ?_⟩
    rw [hgn]
    simp only [List.all_eq_true] at h3 ⊢
    exact fun c hc => ih c (h3 c hc)

/-- Values are unchanged by heap changes that preserve the lookups of all
old ids, for well-formed nodes (whose reachable ids are all old). -/
theorem aval_frame_wf {st st₂ : DomState}
    (hlk : ∀ i, i < st.nextId → hLookup st₂.nodes i = hLookup st.nodes i) :
    ∀ f n, wfN f st n = true → aval f st₂ n = aval f st n := by
  intro f
  induction f with
  | zero => intro n h; simp [wfN] at h
  | succ f ih =>
    intro n h
    rw [wfN_succ] at h
    simp only [Bool.and_eq_true, decide_eq_true_eq] at h
    obtain ⟨⟨h1, _⟩, h3⟩ := h
    have hgn := getNode_congr (hlk n h1)
    rw [aval_succ, aval_succ, hgn]
    simp only [List.all_eq_true] at h3
    congr 1
    exact List.map_congr_left (fun c hc => ih c (h3 c hc))

/-- Range containment survives heap changes that preserve the lookups of the
ids in the range. -/
theorem rangeN_frame {q b : Nat} {st st₂ : DomState}
    (hlk : ∀ i, q ≤ i → i < b → hLookup st₂.nodes i = hLookup st.nodes i) :
    ∀ f n, rangeN q b f st n = true → rangeN q b f st₂ n = true := by
  intro f
  induction f with
  | zero => intro n h; simpa [rangeN] using h
  | succ f ih =>
    intro n h
    rw [rangeN_succ] at h ⊢
    simp only [Bool.and_eq_true, decide_eq_true_eq] at h ⊢
    obtain ⟨⟨h1, h2⟩, h3⟩ := h
    have hgn := getNode_congr (hlk n h1 h2)
    refine ⟨⟨h1, h2⟩, ?_⟩
    rw [hgn]
    simp only [List.all_eq_true] at h3 ⊢
    exact fun c hc => ih c (h3 c hc)

/-- Values of in-range nodes are unchanged by heap changes that preserve the
lookups of the ids in the range. -/
theorem aval_frame_range {q b : Nat} {st st₂ : DomState}
    (hlk : ∀ i, q ≤ i → i < b → hLookup st₂.nodes i = hLookup st.nodes i) :
    ∀ f n, rangeN q b f st n = true → aval f st₂ n = aval f st n := by
  intro f
  induction f with
  | zero =>
    intro n h
    simp only [rangeN, Bool.and_eq_true, decide_eq_true_eq] at h
    have hgn := getNode_congr (hlk n h.1 h.2)
    show AVal.mk (getNode st₂ n).tagName (getNode st₂ n).text [] = _
    rw [hgn]
    rfl
  | succ f ih =>
    intro n h
    rw [rangeN_succ] at h
    simp only [Bool.and_eq_true, decide_eq_true_eq] at h
    obtain ⟨⟨h1, h2⟩, h3⟩ := h
    have hgn := getNode_congr (hlk n h1 h2)
    rw [aval_succ, aval_succ, hgn]
    simp only [List.all_eq_true] at h3
    congr 1
    exact List.map_congr_left (fun c hc => ih c (h3 c hc))

theorem rangeN_mono {q q' b b' : Nat} (hq : q' ≤ q) (hb : b ≤ b') :
    ∀ f st n, rangeN q b f st n = true → rangeN q' b' f st n = true := by
  intro f
  induction f with
  | zero =>
    intro st n h
    simp only [rangeN, Bool.and_eq_true, decide_eq_true_eq] at h ⊢
    omega
  | succ f ih =>
    intro st n h
    rw [rangeN_succ] at h ⊢
    simp only [Bool.and_eq_true, decide_eq_true_eq, List.all_eq_true] at h ⊢
    obtain ⟨⟨h1, h2⟩, h3⟩ := h
    exact ⟨⟨by omega, by omega⟩, fun c hc => ih st c (h3 c hc)⟩

/-! ## Clone produces fresh, in-range, value-faithful copies -/

theorem cloneMany_zero_eq : cloneMany 0 = cloneStep (fun st _ => (st, [])) := rfl

theorem cloneMany_succ_eq (f : Nat) : cloneMany (f + 1) = cloneStep (cloneMany f) := rfl

theorem cloneStep_nil (child : DomState → List Nat → DomState × List Nat) (st : DomState) :
    cloneStep child st [] = (st, []) := rfl

theorem cloneMany_zero_cons (st : DomState) (n : Nat) (rest : List Nat) :
    cloneMany 0 st (n :: rest) =
      ((cloneMany 0 (setNode (cloneAlloc st n) st.nextId
          ⟨(getNode st n).tagName, (getNode st n).attrsId, [], (getNode st n).parent, false,
            (getNode st n).text⟩) rest).1,
        st.nextId ::
          (cloneMany 0 (setNode (cloneAlloc st n) st.nextId
            ⟨(getNode st n).tagName, (getNode st n).attrsId, [], (getNode st n).parent, false,
              (getNode st n).text⟩) rest).2) := rfl

theorem cloneMany_succ_cons (f : Nat) (st : DomState) (n : Nat) (rest : List Nat) :
    cloneMany (f + 1) st (n :: rest) =
      ((cloneMany (f + 1)
          (setNode (cloneMany f (cloneAlloc st n) (getNode st n).children).1 st.nextId
            ⟨(getNode st n).tagName, (getNode st n).attrsId,
              (cloneMany f (cloneAlloc st n) (getNode st n).children).2,
              (getNode st n).parent, false, (getNode st n).text⟩) rest).1,
        st.nextId ::
          (cloneMany (f + 1)
            (setNode (cloneMany f (cloneAlloc st n) (getNode st n).children).1 st.nextId
              ⟨(getNode st n).tagName, (getNode st n).attrsId,
                (cloneMany f (cloneAlloc st n) (getNode st n).children).2,
                (getNode st n).parent, false, (getNode st n).text⟩) rest).2) := rfl

/-- Every id produced by `cloneMany f`, together with everything reachable
from it to depth `f`, lies in `[st.nextId, st'.nextId)` of the final state. -/
theorem cloneMany_range :
    ∀ f st l, ((cloneMany f st l).2).all
      (rangeN st.nextId (cloneMany f st l).1.nextId f (cloneMany f st l).1) = true := by
  intro f
  induction f with
  | zero =>
    intro st l
    induction l generalizing st with
    | nil => rfl
    | cons n rest ihl =>
      rw [cloneMany_zero_cons]
      obtain ⟨f1, f2, f3, f4, f5, f6, f7⟩ := cloneMany_frame 0 (setNode (cloneAlloc st n) st.nextId
          ⟨(getNode st n).tagName, (getNode st n).attrsId, [],
            (getNode st n).parent, false, (getNode st n).text⟩) rest
      have hq := ihl (setNode (cloneAlloc st n) st.nextId
          ⟨(getNode st n).tagName, (getNode st n).attrsId, [],
            (getNode st n).parent, false, (getNode st n).text⟩)
      have hid3 : (setNode (cloneAlloc st n) st.nextId
          ⟨(getNode st n).tagName, (getNode st n).attrsId, [],
            (getNode st n).parent, false, (getNode st n).text⟩).nextId = st.nextId + 1 := rfl
      rw [hid3] at f4 hq
      simp only [List.all_cons, Bool.and_eq_true]
      constructor
      · simp only [rangeN, Bool.and_eq_true, decide_eq_true_eq]
        omega
      · simp only [List.all_eq_true] at hq ⊢
        intro c hc
        exact rangeN_mono (by omega) (le_refl _) 0 _ c (hq c hc)
  | succ f ihf =>
    intro st l
    induction l generalizing st with
    | nil => rfl
    | cons n rest ihl =>
      rw [cloneMany_succ_cons]
      obtain ⟨g1, g2, g3, g4, g5, g6, g7⟩ :=
        cloneMany_frame f (cloneAlloc st n) (getNode st n).children
      obtain ⟨f1, f2, f3, f4, f5, f6, f7⟩ := cloneMany_frame (f + 1)
        (setNode (cloneMany f (cloneAlloc st n) (getNode st n).children).1 st.nextId
          ⟨(getNode st n).tagName, (getNode st n).attrsId,
            (cloneMany f (cloneAlloc st n) (getNode st n).children).2,
            (getNode st n).parent, false, (getNode st n).text⟩) rest
      have hid1 : (cloneAlloc st n).nextId = st.nextId + 1 := rfl
      have hid3 : (setNode (cloneMany f (cloneAlloc st n) (getNode st n).children).1 st.nextId
          ⟨(getNode st n).tagName, (getNode st n).attrsId,
            (cloneMany f (cloneAlloc st n) (getNode st n).children).2,
            (getNode st n).parent, false, (getNode st n).text⟩).nextId =
          (cloneMany f (cloneAlloc st n) (getNode st n).children).1.nextId := rfl
      rw [hid3] at f4
      simp only [hid3] at f6
      rw [hid1] at g4
      have hkids := ihf (cloneAlloc st n) (getNode st n).children
      have hlkq : ∀ i, st.nextId + 1 ≤ i →
          i < (cloneMany f (cloneAlloc st n) (getNode st n).children).1.nextId →
          hLookup (cloneMany (f + 1)
            (setNode (cloneMany f (cloneAlloc st n) (getNode st n).children).1 st.nextId
              ⟨(getNode st n).tagName, (getNode st n).attrsId,
                (cloneMany f (cloneAlloc st n) (getNode st n).children).2,
                (getNode st n).parent, false, (getNode st n).text⟩) rest).1.nodes i =
          hLookup (cloneMany f (cloneAlloc st n) (getNode st n).children).1.nodes i := by
        intro i hi1 hi2
        rw [f6 i (by omega)]
        show hLookup (hSet _ st.nextId _) i = _
        exact hLookup_hSet_ne _ _ (by omega)
      have hkidsq : (cloneMany f (cloneAlloc st n) (getNode st n).children).2.all
          (rangeN (st.nextId + 1)
            (cloneMany f (cloneAlloc st n) (getNode st n).children).1.nextId f
            (cloneMany (f + 1)
              (setNode (cloneMany f (cloneAlloc st n) (getNode st n).children).1 st.nextId
                ⟨(getNode st n).tagName, (getNode st n).attrsId,
                  (cloneMany f (cloneAlloc st n) (getNode st n).children).2,
                  (getNode st n).parent, false, (getNode st n).text⟩) rest).1) = true := by
        simp only [List.all_eq_true] at hkids ⊢
        intro c hc
        refine rangeN_frame hlkq f c ?_
        exact rangeN_mono (by omega) (le_refl _) f _ c (hkids c hc)
      simp only [List.all_cons, Bool.and_eq_true]
      constructor
      · rw [rangeN_succ]
        simp only [Bool.and_eq_true, decide_eq_true_eq]
        have hgn : getNode (cloneMany (f + 1)
            (setNode (cloneMany f (cloneAlloc st n) (getNode st n).children).1 st.nextId
              ⟨(getNode st n).tagName, (getNode st n).attrsId,
                (cloneMany f (cloneAlloc st n) (getNode st n).children).2,
                (getNode st n).parent, false, (getNode st n).text⟩) rest).1 st.nextId =
            ⟨(getNode st n).tagName, (getNode st n).attrsId,
              (cloneMany f (cloneAlloc st n) (getNode st n).children).2,
              (getNode st n).parent, false, (getNode st n).text⟩ := by
          rw [getNode_congr (f6 st.nextId (by omega))]
          exact getNode_setNode_self _ _ _
        refine ⟨⟨le_refl _, by omega⟩, ?_⟩
        rw [hgn]
        simp only [List.all_eq_true] at hkidsq ⊢
        intro c hc
        exact rangeN_mono (by omega) (by omega) f _ c (hkidsq c hc)
      · have hq := ihl (setNode (cloneMany f (cloneAlloc st n) (getNode st n).children).1 st.nextId
          ⟨(getNode st n).tagName, (getNode st n).attrsId,
            (cloneMany f (cloneAlloc st n) (getNode st n).children).2,
            (getNode st n).parent, false, (getNode st n).text⟩)
        rw [hid3] at hq
        simp only [List.all_eq_true] at hq ⊢
        intro c hc
        exact rangeN_mono (by omega) (le_refl _) (f + 1) _ c (hq c hc)

/-- Deep cloning is value-faithful: the clones of a list of well-formed nodes
carry, in the final heap, exactly the structural values the originals had. -/
theorem cloneMany_aval :
    ∀ f st l, l.all (wfN f st) = true →
      (cloneMany f st l).2.map (aval f (cloneMany f st l).1) = l.map (aval f st) := by
  intro f
  induction f with
  | zero =>
    intro st l h
    cases l with
    | nil => rfl
    | cons n rest => simp [wfN] at h
  | succ f ihf =>
    intro st l
    induction l generalizing st with
    | nil => intro h; rfl
    | cons n rest ihl =>
      intro h
      simp only [List.all_cons, Bool.and_eq_true] at h
      obtain ⟨hn, hrest⟩ := h
      have hn' := hn
      rw [wfN_succ] at hn'
      simp only [Bool.and_eq_true, decide_eq_true_eq] at hn'
      obtain ⟨⟨hnlt, _⟩, hkidwf⟩ := hn'
      rw [cloneMany_succ_cons]
      obtain ⟨g1, g2, g3, g4, g5, g6, g7⟩ :=
        cloneMany_frame f (cloneAlloc st n) (getNode st n).children
      obtain ⟨f1, f2, f3, f4, f5, f6, f7⟩ := cloneMany_frame (f + 1)
        (setNode (cloneMany f (cloneAlloc st n) (getNode st n).children).1 st.nextId
          ⟨(getNode st n).tagName, (getNode st n).attrsId,
            (cloneMany f (cloneAlloc st n) (getNode st n).children).2,
            (getNode st n).parent, false, (getNode st n).text⟩) rest
      have hid1 : (cloneAlloc st n).nextId = st.nextId + 1 := rfl
      have hid3 : (setNode (cloneMany f (cloneAlloc st n) (getNode st n).children).1 st.nextId
          ⟨(getNode st n).tagName, (getNode st n).attrsId,
            (cloneMany f (cloneAlloc st n) (getNode st n).children).2,
            (getNode st n).parent, false, (getNode st n).text⟩).nextId =
          (cloneMany f (cloneAlloc st n) (getNode st n).children).1.nextId := rfl
      rw [hid3] at f4
      simp only [hid3] at f6
      rw [hid1] at g4
      -- lookups of genuinely old ids are unchanged all the way to the final state
      have hlk03 : ∀ i, i < st.nextId →
          hLookup (setNode (cloneMany f (cloneAlloc st n) (getNode st n).children).1 st.nextId
            ⟨(getNode st n).tagName, (getNode st n).attrsId,
              (cloneMany f (cloneAlloc st n) (getNode st n).children).2,
              (getNode st n).parent, false, (getNode st n).text⟩).nodes i =
          hLookup st.nodes i := by
        intro i hi
        show hLookup (hSet _ st.nextId _) i = _
        rw [hLookup_hSet_ne _ _ (by omega)]
        rw [g6 i (by omega)]
        exact cloneAlloc_nodes_lt st n hi
      -- the tail of the goal
      have htail : (cloneMany (f + 1)
          (setNode (cloneMany f (cloneAlloc st n) (getNode st n).children).1 st.nextId
            ⟨(getNode st n).tagName, (getNode st n).attrsId,
              (cloneMany f (cloneAlloc st n) (getNode st n).children).2,
              (getNode st n).parent, false, (getNode st n).text⟩) rest).2.map
            (aval (f + 1) (cloneMany (f + 1)
              (setNode (cloneMany f (cloneAlloc st n) (getNode st n).children).1 st.nextId
                ⟨(getNode st n).tagName, (getNode st n).attrsId,
                  (cloneMany f (cloneAlloc st n) (getNode st n).children).2,
                  (getNode st n).parent, false, (getNode st n).text⟩) rest).1) =
          rest.map (aval (f + 1) st) := by
        have hwf3 : rest.all (wfN (f + 1)
            (setNode (cloneMany f (cloneAlloc st n) (getNode st n).children).1 st.nextId
              ⟨(getNode st n).tagName, (getNode st n).attrsId,
                (cloneMany f (cloneAlloc st n) (getNode st n).children).2,
                (getNode st n).parent, false, (getNode st n).text⟩)) = true := by
          simp only [List.all_eq_true] at hrest ⊢
          intro r hr
          refine wfN_frame ?_ hlk03 (f + 1) r (hrest r hr)
          rw [hid3]
          omega
        rw [ihl _ hwf3]
        apply List.map_congr_left
        intro r hr
        simp only [List.all_eq_true] at hrest
        exact aval_frame_wf hlk03 (f + 1) r (hrest r hr)
      -- the head of the goal
      have hhead : aval (f + 1) (cloneMany (f + 1)
          (setNode (cloneMany f (cloneAlloc st n) (getNode st n).children).1 st.nextId
            ⟨(getNode st n).tagName, (getNode st n).attrsId,
              (cloneMany f (cloneAlloc st n) (getNode st n).children).2,
              (getNode st n).parent, false, (getNode st n).text⟩) rest).1 st.nextId =
          aval (f + 1) st n := by
        have hgn : getNode (cloneMany (f + 1)
            (setNode (cloneMany f (cloneAlloc st n) (getNode st n).children).1 st.nextId
              ⟨(getNode st n).tagName, (getNode st n).attrsId,
                (cloneMany f (cloneAlloc st n) (getNode st n).children).2,
                (getNode st n).parent, false, (getNode st n).text⟩) rest).1 st.nextId =
            ⟨(getNode st n).tagName, (getNode st n).attrsId,
              (cloneMany f (cloneAlloc st n) (getNode st n).children).2,
              (getNode st n).parent, false, (getNode st n).text⟩ := by
          rw [getNode_congr (f6 st.nextId (by omega))]
          exact getNode_setNode_self _ _ _
        rw [aval_succ, aval_succ, hgn]
        have hwfkids1 : (getNode st n).children.all (wfN f (cloneAlloc st n)) = true := by
          simp only [List.all_eq_true] at hkidwf ⊢
          intro c hc
          exact wfN_frame (by rw [hid1]; omega) (fun i hi => cloneAlloc_nodes_lt st n hi)
            f c (hkidwf c hc)
        have hranges := cloneMany_range f (cloneAlloc st n) (getNode st n).children
        rw [hid1] at hranges
        have hlkq : ∀ i, st.nextId + 1 ≤ i →
            i < (cloneMany f (cloneAlloc st n) (getNode st n).children).1.nextId →
            hLookup (cloneMany (f + 1)
              (setNode (cloneMany f (cloneAlloc st n) (getNode st n).children).1 st.nextId
                ⟨(getNode st n).tagName, (getNode st n).attrsId,
                  (cloneMany f (cloneAlloc st n) (getNode st n).children).2,
                  (getNode st n).parent, false, (getNode st n).text⟩) rest).1.nodes i =
            hLookup (cloneMany f (cloneAlloc st n) (getNode st n).children).1.nodes i := by
          intro i hi1 hi2
          rw [f6 i (by omega)]
          show hLookup (hSet _ st.nextId _) i = _
          exact hLookup_hSet_ne _ _ (by omega)
        simp only []
        congr 1
        -- clones of the children, in the final state, carry the originals' values
        have step1 : (cloneMany f (cloneAlloc st n) (getNode st n).children).2.map
            (aval f (cloneMany (f + 1)
              (setNode (cloneMany f (cloneAlloc st n) (getNode st n).children).1 st.nextId
                ⟨(getNode st n).tagName, (getNode st n).attrsId,
                  (cloneMany f (cloneAlloc st n) (getNode st n).children).2,
                  (getNode st n).parent, false, (getNode st n).text⟩) rest).1) =
            (cloneMany f (cloneAlloc st n) (getNode st n).children).2.map
              (aval f (cloneMany f (cloneAlloc st n) (getNode st n).children).1) := by
          apply List.map_congr_left
          intro c hc
          simp only [List.all_eq_true] at hranges
          exact aval_frame_range hlkq f c (hranges c hc)
        rw [step1, ihf _ _ hwfkids1]
        apply List.map_congr_left
        intro c hc
        simp only [List.all_eq_true] at hkidwf
        exact aval_frame_wf (fun i hi => cloneAlloc_nodes_lt st n hi) f c (hkidwf c hc)
      simp only [List.map_cons]
      rw [hhead, htail]

theorem cloneNodeM_true_eq (f : Nat) (st : DomState) (n : Nat) :
    cloneNodeM f st n true =
      (setNode (cloneMany f (cloneAlloc st n) (getNode st n).children).1 st.nextId
        ⟨(getNode st n).tagName, (getNode st n).attrsId,
          (cloneMany f (cloneAlloc st n) (getNode st n).children).2,
          (getNode st n).parent, false, (getNode st n).text⟩, st.nextId) := rfl

/-- A deep clone's structural value equals the original's, in the clone's
final heap. -/
theorem cloneNodeM_aval (f : Nat) (st : DomState) (n : Nat)
    (h : wfN (f + 1) st n = true) :
    aval (f + 1) (cloneNodeM f st n true).1 st.nextId = aval (f + 1) st n := by
  rw [wfN_succ] at h
  simp only [Bool.and_eq_true, decide_eq_true_eq] at h
  obtain ⟨⟨hnlt, _⟩, hkidwf⟩ := h
  rw [cloneNodeM_true_eq]
  obtain ⟨g1, g2, g3, g4, g5, g6, g7⟩ :=
    cloneMany_frame f (cloneAlloc st n) (getNode st n).children
  have hid1 : (cloneAlloc st n).nextId = st.nextId + 1 := rfl
  rw [hid1] at g4
  rw [aval_succ, aval_succ]
  rw [getNode_setNode_self]
  simp only []
  congr 1
  have hranges := cloneMany_range f (cloneAlloc st n) (getNode st n).children
  rw [hid1] at hranges
  have hlkq : ∀ i, st.nextId + 1 ≤ i →
      i < (cloneMany f (cloneAlloc st n) (getNode st n).children).1.nextId →
      hLookup (setNode (cloneMany f (cloneAlloc st n) (getNode st n).children).1 st.nextId
        ⟨(getNode st n).tagName, (getNode st n).attrsId,
          (cloneMany f (cloneAlloc st n) (getNode st n).children).2,
          (getNode st n).parent, false, (getNode st n).text⟩).nodes i =
      hLookup (cloneMany f (cloneAlloc st n) (getNode st n).children).1.nodes i := by
    intro i hi1 hi2
    show hLookup (hSet _ st.nextId _) i = _
    exact hLookup_hSet_ne _ _ (by omega)
  have step1 : (cloneMany f (cloneAlloc st n) (getNode st n).children).2.map
      (aval f (setNode (cloneMany f (cloneAlloc st n) (getNode st n).children).1 st.nextId
        ⟨(getNode st n).tagName, (getNode st n).attrsId,
          (cloneMany f (cloneAlloc st n) (getNode st n).children).2,
          (getNode st n).parent, false, (getNode st n).text⟩)) =
      (cloneMany f (cloneAlloc st n) (getNode st n).children).2.map
        (aval f (cloneMany f (cloneAlloc st n) (getNode st n).children).1) := by
    apply List.map_congr_left
    intro c hc
    simp only [List.all_eq_true] at hranges
    exact aval_frame_range hlkq f c (hranges c hc)
  have hwfkids1 : (getNode st n).children.all (wfN f (cloneAlloc st n)) = true := by
    simp only [List.all_eq_true] at hkidwf ⊢
    intro c hc
    exact wfN_frame (by rw [hid1]; omega) (fun i hi => cloneAlloc_nodes_lt st n hi)
      f c (hkidwf c hc)
  rw [step1, cloneMany_aval f _ _ hwfkids1]
  apply List.map_congr_left
  intro c hc
  simp only [List.all_eq_true] at hkidwf
  exact aval_frame_wf (fun i hi => cloneAlloc_nodes_lt st n hi) f c (hkidwf c hc)

/-- The ids reachable from a deep clone (to its depth) are all fresh: they lie
in `[st.nextId, st'.nextId)`. -/
theorem cloneNodeM_range (f : Nat) (st : DomState) (n : Nat) :
    rangeN st.nextId (cloneNodeM f st n true).1.nextId (f + 1)
      (cloneNodeM f st n true).1 st.nextId = true := by
  rw [cloneNodeM_true_eq]
  obtain ⟨g1, g2, g3, g4, g5, g6, g7⟩ :=
    cloneMany_frame f (cloneAlloc st n) (getNode st n).children
  have hid1 : (cloneAlloc st n).nextId = st.nextId + 1 := rfl
  rw [hid1] at g4
  have hid3 : (setNode (cloneMany f (cloneAlloc st n) (getNode st n).children).1 st.nextId
      ⟨(getNode st n).tagName, (getNode st n).attrsId,
        (cloneMany f (cloneAlloc st n) (getNode st n).children).2,
        (getNode st n).parent, false, (getNode st n).text⟩).nextId =
      (cloneMany f (cloneAlloc st n) (getNode st n).children).1.nextId := rfl
  have hbound : st.nextId < (setNode (cloneMany f (cloneAlloc st n) (getNode st n).children).1
      st.nextId ⟨(getNode st n).tagName, (getNode st n).attrsId,
        (cloneMany f (cloneAlloc st n) (getNode st n).children).2,
        (getNode st n).parent, false, (getNode st n).text⟩).nextId := by
    rw [hid3]
    omega
  rw [rangeN_succ]
  simp only [Bool.and_eq_true, decide_eq_true_eq]
  rw [getNode_setNode_self]
  refine ⟨⟨Nat.le_refl _, hbound⟩, ?_⟩
  have hranges := cloneMany_range f (cloneAlloc st n) (getNode st n).children
  rw [hid1] at hranges
  have hlkq : ∀ i, st.nextId + 1 ≤ i →
      i < (cloneMany f (cloneAlloc st n) (getNode st n).children).1.nextId →
      hLookup (setNode (cloneMany f (cloneAlloc st n) (getNode st n).children).1 st.nextId
        ⟨(getNode st n).tagName, (getNode st n).attrsId,
          (cloneMany f (cloneAlloc st n) (getNode st n).children).2,
          (getNode st n).parent, false, (getNode st n).text⟩).nodes i =
      hLookup (cloneMany f (cloneAlloc st n) (getNode st n).children).1.nodes i := by
    intro i hi1 hi2
    show hLookup (hSet _ st.nextId _) i = _
    exact hLookup_hSet_ne _ _ (by omega)
  simp only [List.all_eq_true] at hranges ⊢
  intro c hc
  have hc2 := rangeN_frame hlkq f c (hranges c hc)
  exact rangeN_mono (by omega) (by rw [hid3]) f _ c hc2

/-! ## Concrete fixture states used by counterexamples and witnesses -/

/-- Three fresh elements: `0 : div`, `1 : span`, `2 : b`. -/
def fix3 : DomState :=
  (createElement ((createElement ((createElement emptyDom ("div")).1) ("span")).1) ("b")).1

/-- `fix3` with nodes `0` and `1` appended top-level: `directChildren = [0, 1]`. -/
def fixDC : DomState := domAppendChild (domAppendChild fix3 0) 1

/-- `fix3` with node `1` appended as an element child of node `0`. -/
def fixPC : DomState := elemAppendChild 8 fix3 0 1

/-- `fix3` with `0` top-level and `1` still fresh. -/
def fixTop : DomState := domAppendChild fix3 0

/-- `div` grandparent `0` with `span` child `1` holding `b`... a `div`-tagged
grandchild: node ids `0 → 1 → 2`, where `2`'s tag differs from `1`'s. -/
def fixDeep : DomState := elemAppendChild 8 (elemAppendChild 8 fix3 0 1) 1 2

/-! ## Claim theorems -/

/-- C10: no tree-level structural operation (`appendChild`, `insertBefore`,
`removeChild`, `replaceChild` on the `VirtualDOM`) ever invokes the
tree-change notification path: the notification log is unchanged. -/
theorem claim10_tree_ops_never_notify :
    ∀ st el ref newC oldC,
      (domAppendChild st el).notifications = st.notifications ∧
      (domInsertBefore st el ref).notifications = st.notifications ∧
      ((domRemoveChild st el).1).notifications = st.notifications ∧
      ((domReplaceChild st newC oldC).1).notifications = st.notifications := by
  intro st el ref newC oldC
  refine ⟨?_, ?_, ?_, ?_⟩
  · unfold domAppendChild
    split <;> rfl
  · unfold domInsertBefore
    split <;> rfl
  · unfold domRemoveChild
    rcases natIdx st.directChildren el with _ | i
    · rcases natIdx st.domChildren el with _ | j <;> rfl
    · rfl
  · unfold domReplaceChild
    split
    · rfl
    · rcases natIdx st.directChildren oldC with _ | i
      · rcases natIdx st.domChildren oldC with _ | j <;> rfl
      · rfl

/-- C5, counterexample: with `topLevelNodes = [0, 1]` and an absent reference
(`7`), `insertBefore` puts the new node `2` at position 1 (immediately before
the last element), not at position 0 as the claim states. -/
theorem claim5_counterexample :
    (getNode fixDC 2).isRemoved = false ∧
    natIdx fixDC.directChildren 7 = none ∧
    fixDC.directChildren = [0, 1] ∧
    (domInsertBefore fixDC 2 7).directChildren = [0, 2, 1] ∧
    ¬ (domInsertBefore fixDC 2 7).directChildren = 2 :: fixDC.directChildren := by
  decide

/-- C5 (amended): `insertBefore` is a no-op on a removed node; with the
reference present (first index `i`) it splices the node in at `i`; with the
reference absent it splices the node in immediately before the *last* element
of `topLevelNodes` (at index `length - 1`; index 0 only when the list is empty
or a singleton). -/
theorem claim5_insertBefore :
    ∀ st c ref,
      ((getNode st c).isRemoved = true → domInsertBefore st c ref = st) ∧
      ((getNode st c).isRemoved = false →
        (∀ i, natIdx st.directChildren ref = some i →
          (domInsertBefore st c ref).directChildren =
            st.directChildren.take i ++ c :: st.directChildren.drop i) ∧
        (natIdx st.directChildren ref = none →
          (domInsertBefore st c ref).directChildren =
            st.directChildren.take (st.directChildren.length - 1) ++
              c :: st.directChildren.drop (st.directChildren.length - 1))) := by
  intro st c ref
  constructor
  · intro hrem
    unfold domInsertBefore
    rw [if_pos hrem]
  · intro hrem
    constructor
    · intro i hi
      unfold domInsertBefore
      rw [if_neg (by simp [hrem])]
      simp only [jsIndexOf, hi]
      exact jsSpliceInsert_at (Nat.le_of_lt (natIdx_lt_length hi)) c
    · intro hnone
      unfold domInsertBefore
      rw [if_neg (by simp [hrem])]
      simp only [jsIndexOf, hnone]
      exact jsSpliceInsert_neg_one _ c

/-- C5, witness: instantiating the amended theorem on the concrete fixture. -/
theorem claim5_witness :
    (getNode fixDC 2).isRemoved = false ∧
    natIdx fixDC.directChildren 7 = none ∧
    (domInsertBefore fixDC 2 7).directChildren =
      fixDC.directChildren.take (fixDC.directChildren.length - 1) ++
        2 :: fixDC.directChildren.drop (fixDC.directChildren.length - 1) :=
  ⟨by decide, by decide,
    ((claim5_insertBefore fixDC 2 7).2 (by decide)).2 (by decide)⟩

/-- C7: every tree-level lookup searches `topLevelNodes` first and falls back
to `allDescendants` only when the top-level filter is empty; results match
the key exactly (whole-string for `class`), and the two tiers are never
merged: a returned element is a top-level match, or the top tier is empty and
it is a descendant match. -/
theorem claim7_two_tier_lookups :
    ∀ st sel cls idv,
      (∀ x, x ∈ domQuerySelectorAll st sel →
        (getNode st x).tagName = sel ∧
        (x ∈ st.directChildren.filter (fun e => (getNode st e).tagName = sel) ∨
          (st.directChildren.filter (fun e => (getNode st e).tagName = sel) = [] ∧
            x ∈ st.domChildren.filter (fun e => (getNode st e).tagName = sel)))) ∧
      (st.directChildren.filter (fun e => (getNode st e).tagName = sel) ≠ [] →
        domQuerySelectorAll st sel =
          st.directChildren.filter (fun e => (getNode st e).tagName = sel)) ∧
      (st.directChildren.filter (fun e => (getNode st e).tagName = sel) = [] →
        domQuerySelectorAll st sel =
          st.domChildren.filter (fun e => (getNode st e).tagName = sel)) ∧
      domQuerySelector st sel = (domQuerySelectorAll st sel).head? ∧
      (st.directChildren.filter (fun e => recGet (getAttrs st e) ("id") = some idv) ≠ [] →
        domGetElementById st idv =
          (st.directChildren.filter (fun e => recGet (getAttrs st e) ("id") = some idv)).head?) ∧
      (st.directChildren.filter (fun e => recGet (getAttrs st e) ("id") = some idv) = [] →
        domGetElementById st idv =
          (st.domChildren.filter (fun e => recGet (getAttrs st e) ("id") = some idv)).head?) ∧
      (∀ x, x ∈ domGetElementsByClassName st cls →
        recGet (getAttrs st x) ("class") = some cls) ∧
      (st.directChildren.filter (fun e => recGet (getAttrs st e) ("class") = some cls) ≠ [] →
        domGetElementsByClassName st cls =
          st.directChildren.filter (fun e => recGet (getAttrs st e) ("class") = some cls)) ∧
      (st.directChildren.filter (fun e => recGet (getAttrs st e) ("class") = some cls) = [] →
        domGetElementsByClassName st cls =
          st.domChildren.filter (fun e => recGet (getAttrs st e) ("class") = some cls)) := by
  intro st sel cls idv
  have hqsa : ∀ h : st.directChildren.filter (fun e => (getNode st e).tagName = sel) ≠ [],
      domQuerySelectorAll st sel =
        st.directChildren.filter (fun e => (getNode st e).tagName = sel) := by
    intro h
    unfold domQuerySelectorAll
    rw [if_pos (by simpa [List.length_pos] using h)]
  have hqsa0 : ∀ h : st.directChildren.filter (fun e => (getNode st e).tagName = sel) = [],
      domQuerySelectorAll st sel =
        st.domChildren.filter (fun e => (getNode st e).tagName = sel) := by
    intro h
    unfold domQuerySelectorAll
    rw [if_neg (by simp [h])]
  refine ⟨?_, hqsa, hqsa0, ?_, ?_, ?_, ?_, ?_, ?_⟩
  · intro x hx
    by_cases h : st.directChildren.filter (fun e => (getNode st e).tagName = sel) = []
    · rw [hqsa0 h] at hx
      have := List.mem_filter.mp hx
      exact ⟨by simpa using this.2, Or.inr ⟨h, hx⟩⟩
    · rw [hqsa h] at hx
      have := List.mem_filter.mp hx
      exact ⟨by simpa using this.2, Or.inl hx⟩
  · unfold domQuerySelector domQuerySelectorAll
    by_cases h : 0 < (st.directChildren.filter (fun e => (getNode st e).tagName = sel)).length
    · rw [if_pos h, if_pos h]
    · rw [if_neg h, if_neg h]
  · intro h
    unfold domGetElementById
    rw [if_pos (by simpa [List.length_pos] using h)]
  · intro h
    unfold domGetElementById
    rw [if_neg (by simp [h])]
  · intro x hx
    unfold domGetElementsByClassName at hx
    by_cases h : 0 < (st.directChildren.filter
        (fun e => recGet (getAttrs st e) ("class") = some cls)).length
    · rw [if_pos h] at hx
      simpa using (List.mem_filter.mp hx).2
    · rw [if_neg h] at hx
      simpa using (List.mem_filter.mp hx).2
  · intro h
    unfold domGetElementsByClassName
    rw [if_pos (by simpa [List.length_pos] using h)]
  · intro h
    unfold domGetElementsByClassName
    rw [if_neg (by simp [h])]

/-- C7, witness: on the fixture with top-level `div`/`span`, a top-level
`span` match exists, so the lookup returns exactly the top-level filter. -/
theorem claim7_witness :
    fixDC.directChildren.filter (fun e => (getNode fixDC e).tagName = "span") ≠ [] ∧
    domQuerySelectorAll fixDC ("span") =
      fixDC.directChildren.filter (fun e => (getNode fixDC e).tagName = "span") ∧
    domQuerySelectorAll fixDC ("span") = [1] :=
  ⟨by decide, (claim7_two_tier_lookups fixDC ("span") ("") ("")).2.1 (by decide), by decide⟩

/-- The accumulator walk of the wildcard branch produces the compositional
pre-order listing. -/
theorem preAux_eq_specPre :
    ∀ f st acc l, preAux f st acc l = acc ++ specPre f st l := by
  intro f
  induction f with
  | zero =>
    intro st acc l
    induction l generalizing acc with
    | nil => simp [preAux, preStep, specPre, specStep]
    | cons c rest ihl =>
      show preAux 0 st (acc ++ [c]) rest = _
      rw [ihl]
      show _ = acc ++ ((c :: []) ++ specPre 0 st rest)
      simp
  | succ f ihf =>
    intro st acc l
    induction l generalizing acc with
    | nil => simp [preAux, preStep, specPre, specStep]
    | cons c rest ihl =>
      show preAux (f + 1) st (preAux f st (acc ++ [c]) (getNode st c).children) rest = _
      rw [ihl, ihf]
      show _ = acc ++ ((c :: specPre f st (getNode st c).children) ++ specPre (f + 1) st rest)
      simp

/-- C6: a non-wildcard element `querySelectorAll` returns exactly the direct
children whose tag equals the selector (the recursive-descent fallback never
extends the result, so deeper matches are never returned); the `"*"` selector
returns the pre-order listing of all descendants; `querySelector` is the head
of the `querySelectorAll` result. -/
theorem claim6_elem_query :
    ∀ f st n,
      (∀ sel, ¬ sel = "*" →
        elemQuerySelectorAll f st n sel =
          (getNode st n).children.filter (fun e => (getNode st e).tagName = sel) ∧
        (∀ m, m ∈ elemQuerySelectorAll f st n sel → m ∈ (getNode st n).children)) ∧
      elemQuerySelectorAll f st n ("*") = specPre f st (getNode st n).children ∧
      (∀ sel, elemQuerySelector f st n sel = (elemQuerySelectorAll f st n sel).head?) := by
  intro f st n
  refine ⟨?_, ?_, fun sel => rfl⟩
  · intro sel hsel
    have heq : elemQuerySelectorAll f st n sel =
        (getNode st n).children.filter (fun e => (getNode st e).tagName = sel) := by
      unfold elemQuerySelectorAll
      rw [if_neg hsel]
    refine ⟨heq, ?_⟩
    intro m hm
    rw [heq] at hm
    exact List.mem_filter.mp hm |>.1
  · unfold elemQuerySelectorAll
    rw [if_pos rfl]
    exact preAux_eq_specPre f st [] _

/-- C6, witness: in the fixture `div(0) → span(1) → b(2)`, node `0` has a
`b`-tagged grandchild but no `b`-tagged direct child; the non-wildcard search
returns no match (deeper matches are never found), while `"*"` returns the
full pre-order listing `[1, 2]` which does contain the grandchild. -/
theorem claim6_witness :
    ¬ "b" = "*" ∧
    elemQuerySelectorAll 8 fixDeep 0 ("b") =
      (getNode fixDeep 0).children.filter (fun e => (getNode fixDeep e).tagName = "b") ∧
    elemQuerySelectorAll 8 fixDeep 0 ("b") = [] ∧
    elemQuerySelectorAll 8 fixDeep 0 ("*") = [1, 2] ∧
    (getNode fixDeep 2).tagName = "b" ∧ (getNode fixDeep 1).tagName = "span" :=
  ⟨by decide, ((claim6_elem_query 8 fixDeep 0).1 ("b") (by decide)).1,
    by decide, by decide, by decide, by decide⟩

theorem applyCbs_nil (ev : VEvent) : applyCbs ev [] = ev := rfl

theorem applyCbs_cons (ev : VEvent) (c : VEvent → VEvent) (cs : List (VEvent → VEvent)) :
    applyCbs ev (c :: cs) = applyCbs (c ev) cs := rfl

/-- The dispatch loop runs a non-empty prefix of the callbacks in order: the
final event is the fold of the executed prefix over the initial event, every
intermediate event (after all but the last executed callback) still bubbles,
and if the loop stopped early the event no longer bubbled after the last
executed callback. -/
theorem dispatchList_spec :
    ∀ (cbs : List (VEvent → VEvent)) (ev : VEvent), cbs ≠ [] →
      (dispatchList ev cbs).1 = applyCbs ev (cbs.take (dispatchList ev cbs).2) ∧
      1 ≤ (dispatchList ev cbs).2 ∧ (dispatchList ev cbs).2 ≤ cbs.length ∧
      (∀ j, j + 1 < (dispatchList ev cbs).2 →
        (applyCbs ev (cbs.take (j + 1))).bubbles = true) ∧
      ((dispatchList ev cbs).2 < cbs.length →
        (applyCbs ev (cbs.take (dispatchList ev cbs).2)).bubbles = false) := by
  intro cbs
  induction cbs with
  | nil => intro ev h; exact absurd rfl h
  | cons c cs ih =>
    intro ev _
    cases cs with
    | nil =>
      by_cases hb : (c ev).bubbles <;>
        simp [dispatchList, hb, applyCbs]
    | cons c2 cs2 =>
      by_cases hb : (c ev).bubbles
      · have hd : dispatchList ev (c :: c2 :: cs2) =
            ((dispatchList (c ev) (c2 :: cs2)).1, (dispatchList (c ev) (c2 :: cs2)).2 + 1) := by
          simp [dispatchList, hb]
        obtain ⟨i1, i2, i3, i4, i5⟩ := ih (c ev) (by simp)
        rw [hd]
        refine ⟨?_, by omega, by simp only [List.length_cons] at i3 ⊢; omega, ?_, ?_⟩
        · simpa [List.take_succ_cons, applyCbs_cons] using i1
        · intro j hj
          cases j with
          | zero => simpa [List.take_succ_cons, applyCbs_cons, applyCbs_nil] using hb
          | succ j' =>
            have := i4 j' (by omega)
            simpa [List.take_succ_cons, applyCbs_cons] using this
        · intro hlt
          have := i5 (by simpa [List.length_cons] using Nat.lt_of_succ_lt_succ hlt)
          simpa [List.take_succ_cons, applyCbs_cons] using this
      · have hd : dispatchList ev (c :: c2 :: cs2) = (c ev, 1) := by
          simp [dispatchList, hb]
        rw [hd]
        refine ⟨by simp [List.take_succ_cons, applyCbs_cons, applyCbs_nil], le_refl _,
          by simp [List.length_cons], ?_, ?_⟩
        · intro j hj
          omega
        · intro _
          simpa [List.take_succ_cons, applyCbs_cons, applyCbs_nil] using hb

/-- Two listeners that leave the event unchanged, for the concrete scenario. -/
def twoCbs : List (VEvent → VEvent) := [fun e => e, fun e => e]

/-- C8: `dispatchEvent` sets `event.target` to the node, then runs the
listeners registered for the event's type in registration order, stopping
before the next listener as soon as the event no longer bubbles after a
listener returns; in particular a `bubbles:false` event dispatched to a node
with two listeners for its type executes only the first one. -/
theorem claim8_dispatch :
    (∀ (n : Nat) (ls : List (String × List (VEvent → VEvent))) (ev : VEvent)
        (cbs : List (VEvent → VEvent)),
      strLookup ls ev.type = some cbs → cbs ≠ [] →
      dispatchEvent n ls ev =
        some (dispatchList { ev with target := some n } cbs) ∧
      (dispatchList { ev with target := some n } cbs).1 =
        applyCbs { ev with target := some n }
          (cbs.take (dispatchList { ev with target := some n } cbs).2) ∧
      1 ≤ (dispatchList { ev with target := some n } cbs).2 ∧
      (dispatchList { ev with target := some n } cbs).2 ≤ cbs.length ∧
      (∀ j, j + 1 < (dispatchList { ev with target := some n } cbs).2 →
        (applyCbs { ev with target := some n } (cbs.take (j + 1))).bubbles = true) ∧
      ((dispatchList { ev with target := some n } cbs).2 < cbs.length →
        (applyCbs { ev with target := some n }
          (cbs.take (dispatchList { ev with target := some n } cbs).2)).bubbles = false)) ∧
    (dispatchEvent 0 [(("click"), twoCbs)] (mkEvent ("click") none (some false))).map
        (fun r => r.2) = some 1 := by
  constructor
  · intro n ls ev cbs hlk hne
    obtain ⟨s1, s2, s3, s4, s5⟩ := dispatchList_spec cbs { ev with target := some n } hne
    refine ⟨?_, s1, s2, s3, s4, s5⟩
    show (match strLookup ls ev.type with
          | none => none
          | some cbs2 => some (dispatchList { ev with target := some n } cbs2)) =
        some (dispatchList { ev with target := some n } cbs)
    rw [hlk]
  · rfl

/-- C8, witness: the general statement instantiated on a concrete node,
listener table and non-bubbling click event. -/
theorem claim8_witness :
    strLookup [(("click"), twoCbs)] (mkEvent ("click") none (some false)).type = some twoCbs ∧
    twoCbs ≠ [] ∧
    dispatchEvent 0 [(("click"), twoCbs)] (mkEvent ("click") none (some false)) =
      some (dispatchList
        { mkEvent ("click") none (some false) with target := some 0 } twoCbs) ∧
    (dispatchList { mkEvent ("click") none (some false) with target := some 0 } twoCbs).2 = 1 :=
  ⟨rfl, by simp [twoCbs],
    (claim8_dispatch.1 0 [(("click"), twoCbs)] (mkEvent ("click") none (some false)) twoCbs
      rfl (by simp [twoCbs])).1,
    rfl⟩

/-- A fresh `button` element, node id `0`. -/
def fixBtn : DomState := (createElement emptyDom ("button")).1

/-- C9: each `dataset` property is live — reading it returns `getAttribute`
of the original `data-`-kebab-case key it was derived from, and assigning it
calls `setAttribute` on that same original key; concretely, after
`setAttribute("data-test","test")` the property `test` reads `"test"`, and
assigning it `"x"` makes `getAttribute("data-test")` read `"x"`. -/
theorem claim9_dataset_live :
    (∀ st n name ky, lastKeyFor st n name = some ky →
      datasetGet st n name = getAttributeM st n ky ∧
      ∀ f v, datasetSet f st n name v = setAttributeM f st n ky v) ∧
    (lastKeyFor (setAttributeM 8 fixBtn 0 ("data-test") ("test")) 0 ("test") =
        some ("data-test") ∧
      datasetGet (setAttributeM 8 fixBtn 0 ("data-test") ("test")) 0 ("test") = some ("test") ∧
      getAttributeM
        (datasetSet 8 (setAttributeM 8 fixBtn 0 ("data-test") ("test")) 0 ("test") ("x"))
        0 ("data-test") = some ("x")) := by
  constructor
  · intro st n name ky h
    constructor
    · unfold datasetGet
      rw [h]
    · intro f v
      unfold datasetSet
      rw [h]
  · exact ⟨by decide, by decide, by decide⟩

/-- C9, witness: the general liveness statement instantiated on the concrete
`button` scenario. -/
theorem claim9_witness :
    lastKeyFor (setAttributeM 8 fixBtn 0 ("data-test") ("test")) 0 ("test") =
      some ("data-test") ∧
    datasetGet (setAttributeM 8 fixBtn 0 ("data-test") ("test")) 0 ("test") =
      getAttributeM (setAttributeM 8 fixBtn 0 ("data-test") ("test")) 0 ("data-test") :=
  ⟨by decide,
    (claim9_dataset_live.1 (setAttributeM 8 fixBtn 0 ("data-test") ("test")) 0 ("test")
      ("data-test") (by decide)).1⟩

theorem natIdx_mem {l : List Nat} {x i : Nat} (h : natIdx l x = some i) : x ∈ l := by
  have := (natIdx_decomp h).1
  rw [← this]
  simp

/-- C4, counterexample: element-level `removeChild` with a target absent from
the node's `children` signals nothing — and far from leaving the structure
unchanged, it removes the parent's *last* child (and the last entry of the
tree's flattened index), because `splice(indexOf(child), 1)` runs with
index `-1`. -/
theorem claim4_counterexample :
    (2 : Nat) ∉ (getNode fixPC 0).children ∧
    (getNode fixPC 0).children = [1] ∧ fixPC.domChildren = [1] ∧
    (getNode (elemRemoveChild 8 fixPC 0 2) 0).children = [] ∧
    (elemRemoveChild 8 fixPC 0 2).domChildren = [] ∧
    (getNode (elemRemoveChild 8 fixPC 0 2) 2).isRemoved = true := by
  decide

/-- C4 (amended): the tree's `removeChild`/`replaceChild` and the element's
`replaceChild` signal `NotFound` exactly when the target is absent from the
relevant membership views (for the tree's `replaceChild`, only when the
replacement is not itself removed — a removed replacement makes the call a
silent no-op), and a signalled failure leaves the state unchanged; present
targets are removed or replaced in whichever collection held them, with
`removeChild` setting `removed := true`.  The element's `removeChild` never
signals `NotFound`: with a present child it splices it out of `children` and
of the tree's flattened index, but with an absent child it splices out the
*last* element of each instead (the `splice(-1, 1)` quirk), still marking the
argument removed. -/
theorem claim4_not_found :
    (∀ st e, ((domRemoveChild st e).2).isSome = true ↔
      e ∉ st.directChildren ∧ e ∉ st.domChildren) ∧
    (∀ st e, e ∉ st.directChildren → e ∉ st.domChildren →
      domRemoveChild st e = (st, some ("Element not found."))) ∧
    (∀ st e i, natIdx st.directChildren e = some i →
      (domRemoveChild st e).2 = none ∧
      (domRemoveChild st e).1.directChildren =
        st.directChildren.take i ++ st.directChildren.drop (i + 1) ∧
      (domRemoveChild st e).1.domChildren = st.domChildren ∧
      (getNode (domRemoveChild st e).1 e).isRemoved = true) ∧
    (∀ st e j, natIdx st.directChildren e = none → natIdx st.domChildren e = some j →
      (domRemoveChild st e).2 = none ∧
      (domRemoveChild st e).1.domChildren =
        st.domChildren.take j ++ st.domChildren.drop (j + 1) ∧
      (domRemoveChild st e).1.directChildren = st.directChildren ∧
      (getNode (domRemoveChild st e).1 e).isRemoved = true) ∧
    (∀ st c old, (getNode st c).isRemoved = false →
      (((domReplaceChild st c old).2).isSome = true ↔
        old ∉ st.directChildren ∧ old ∉ st.domChildren)) ∧
    (∀ st c old, (getNode st c).isRemoved = false → old ∉ st.directChildren →
      old ∉ st.domChildren → domReplaceChild st c old = (st, some ("Cannot find child."))) ∧
    (∀ st c old, (getNode st c).isRemoved = true → domReplaceChild st c old = (st, none)) ∧
    (∀ st c old i, (getNode st c).isRemoved = false → natIdx st.directChildren old = some i →
      domReplaceChild st c old =
        ({ st with directChildren := listSet st.directChildren i c }, none)) ∧
    (∀ st c old j, (getNode st c).isRemoved = false → natIdx st.directChildren old = none →
      natIdx st.domChildren old = some j →
      domReplaceChild st c old = ({ st with domChildren := listSet st.domChildren j c }, none)) ∧
    (∀ f st n c old, ((elemReplaceChild f st n c old).2).isSome = true ↔
      old ∉ (getNode st n).children) ∧
    (∀ f st n c old, old ∉ (getNode st n).children →
      elemReplaceChild f st n c old = (st, some ("Cannot find old child."))) ∧
    (∀ f st p c, p < st.nextId → p ≠ c → c ∉ (getNode st p).children →
      (getNode (elemRemoveChild f st p c) p).children = (getNode st p).children.dropLast) ∧
    (∀ f st p c, c ∉ st.domChildren →
      (elemRemoveChild f st p c).domChildren = st.domChildren.dropLast) ∧
    (∀ f st p c, (getNode (elemRemoveChild f st p c) c).isRemoved = true) ∧
    (∀ f st p c i, p < st.nextId → p ≠ c → natIdx (getNode st p).children c = some i →
      (getNode (elemRemoveChild f st p c) p).children =
        (getNode st p).children.take i ++ (getNode st p).children.drop (i + 1)) ∧
    (∀ f st p c j, natIdx st.domChildren c = some j →
      (elemRemoveChild f st p c).domChildren =
        st.domChildren.take j ++ st.domChildren.drop (j + 1)) := by
  have hercP : ∀ f st p c, (getNode (elemRemoveChild f st p c) p).children =
      (if p = c then
        ({ getNode (setNode (cloneNodeM f st p true).1 p
            { getNode (cloneNodeM f st p true).1 p with
                children := jsSpliceRemove (getNode (cloneNodeM f st p true).1 p).children
                  (jsIndexOf (getNode (cloneNodeM f st p true).1 p).children c) 1 }) c
            with isRemoved := true }).children
      else
        jsSpliceRemove (getNode (cloneNodeM f st p true).1 p).children
          (jsIndexOf (getNode (cloneNodeM f st p true).1 p).children c) 1) := by
    intro f st p c
    show (getNode (setNode (setNode (cloneNodeM f st p true).1 p
        { getNode (cloneNodeM f st p true).1 p with
            children := jsSpliceRemove (getNode (cloneNodeM f st p true).1 p).children
              (jsIndexOf (getNode (cloneNodeM f st p true).1 p).children c) 1 }) c
        { getNode (setNode (cloneNodeM f st p true).1 p
            { getNode (cloneNodeM f st p true).1 p with
                children := jsSpliceRemove (getNode (cloneNodeM f st p true).1 p).children
                  (jsIndexOf (getNode (cloneNodeM f st p true).1 p).children c) 1 }) c
          with isRemoved := true }) p).children = _
    by_cases hpc : p = c
    · rw [if_pos hpc, hpc, getNode_setNode_self]
    · rw [if_neg hpc, getNode_setNode_ne _ _ hpc, getNode_setNode_self]
  refine ⟨?_, ?_, ?_, ?_, ?_, ?_, ?_, ?_, ?_, ?_, ?_, ?_, ?_, ?_, ?_, ?_⟩
  · intro st e
    unfold domRemoveChild
    rcases h1 : natIdx st.directChildren e with _ | i
    · rcases h2 : natIdx st.domChildren e with _ | j
      · simp only [h1, h2]
        exact iff_of_true rfl ⟨natIdx_eq_none_iff.mp h1, natIdx_eq_none_iff.mp h2⟩
      · simp only [h1, h2]
        constructor
        · intro hs
          simp at hs
        · intro hab
          exact absurd (natIdx_mem h2) hab.2
    · simp only [h1]
      constructor
      · intro hs
        simp at hs
      · intro hab
        exact absurd (natIdx_mem h1) hab.1
  · intro st e h1 h2
    unfold domRemoveChild
    simp only [natIdx_eq_none_iff.mpr h1, natIdx_eq_none_iff.mpr h2]
  · intro st e i hi
    unfold domRemoveChild
    simp only [hi]
    refine ⟨trivial, ?_, rfl, by simp⟩
    show jsSpliceRemove st.directChildren (i : Int) 1 = _
    exact jsSpliceRemove_at (Nat.le_of_lt (natIdx_lt_length hi))
  · intro st e j h1 hj
    unfold domRemoveChild
    simp only [h1, hj]
    refine ⟨trivial, ?_, rfl, by simp⟩
    show jsSpliceRemove st.domChildren (j : Int) 1 = _
    exact jsSpliceRemove_at (Nat.le_of_lt (natIdx_lt_length hj))
  · intro st c old hrem
    unfold domReplaceChild
    rw [if_neg (by simp [hrem])]
    rcases h1 : natIdx st.directChildren old with _ | i
    · rcases h2 : natIdx st.domChildren old with _ | j
      · simp only [h1, h2]
        exact iff_of_true rfl ⟨natIdx_eq_none_iff.mp h1, natIdx_eq_none_iff.mp h2⟩
      · simp only [h1, h2]
        constructor
        · intro hs
          simp at hs
        · intro hab
          exact absurd (natIdx_mem h2) hab.2
    · simp only [h1]
      constructor
      · intro hs
        simp at hs
      · intro hab
        exact absurd (natIdx_mem h1) hab.1
  · intro st c old hrem h1 h2
    unfold domReplaceChild
    rw [if_neg (by simp [hrem])]
    simp only [natIdx_eq_none_iff.mpr h1, natIdx_eq_none_iff.mpr h2]
  · intro st c old hrem
    unfold domReplaceChild
    rw [if_pos (by simp [hrem])]
  · intro st c old i hrem hi
    unfold domReplaceChild
    rw [if_neg (by simp [hrem])]
    simp only [hi]
  · intro st c old j hrem h1 hj
    unfold domReplaceChild
    rw [if_neg (by simp [hrem])]
    simp only [h1, hj]
  · intro f st n c old
    unfold elemReplaceChild
    by_cases hm : old ∈ (getNode st n).children
    · rw [if_pos hm]
      exact iff_of_false (by simp) (by simp [hm])
    · rw [if_neg hm]
      exact iff_of_true rfl hm
  · intro f st n c old hm
    unfold elemReplaceChild
    rw [if_neg hm]
  · intro f st p c hp hpc hnc
    obtain ⟨s1, s2, s3, s4, s5, s6, s7, s8, s9, s10, s11⟩ := cloneNodeM_spec f st p
    have hgp : getNode (cloneNodeM f st p true).1 p = getNode st p := getNode_congr (s5 p hp)
    rw [hercP, if_neg hpc, hgp]
    rw [show jsIndexOf (getNode st p).children c = -1 by
      simp [jsIndexOf, natIdx_eq_none_iff.mpr hnc]]
    exact jsSpliceRemove_neg_one_dropLast _
  · intro f st p c hnc
    obtain ⟨s1, s2, s3, s4, s5, s6, s7, s8, s9, s10, s11⟩ := cloneNodeM_spec f st p
    show jsSpliceRemove (cloneNodeM f st p true).1.domChildren
      (jsIndexOf (cloneNodeM f st p true).1.domChildren c) 1 = _
    rw [s2]
    rw [show jsIndexOf st.domChildren c = -1 by
      simp [jsIndexOf, natIdx_eq_none_iff.mpr hnc]]
    exact jsSpliceRemove_neg_one_dropLast _
  · intro f st p c
    show (getNode (setNode (setNode (cloneNodeM f st p true).1 p
        { getNode (cloneNodeM f st p true).1 p with
            children := jsSpliceRemove (getNode (cloneNodeM f st p true).1 p).children
              (jsIndexOf (getNode (cloneNodeM f st p true).1 p).children c) 1 }) c
        { getNode (setNode (cloneNodeM f st p true).1 p
            { getNode (cloneNodeM f st p true).1 p with
                children := jsSpliceRemove (getNode (cloneNodeM f st p true).1 p).children
                  (jsIndexOf (getNode (cloneNodeM f st p true).1 p).children c) 1 }) c
          with isRemoved := true }) c).isRemoved = true
    rw [getNode_setNode_self]
  · intro f st p c i hp hpc hi
    obtain ⟨s1, s2, s3, s4, s5, s6, s7, s8, s9, s10, s11⟩ := cloneNodeM_spec f st p
    have hgp : getNode (cloneNodeM f st p true).1 p = getNode st p := getNode_congr (s5 p hp)
    rw [hercP, if_neg hpc, hgp]
    rw [show jsIndexOf (getNode st p).children c = (i : Int) by simp [jsIndexOf, hi]]
    exact jsSpliceRemove_at (Nat.le_of_lt (natIdx_lt_length hi))
  · intro f st p c j hj
    obtain ⟨s1, s2, s3, s4, s5, s6, s7, s8, s9, s10, s11⟩ := cloneNodeM_spec f st p
    show jsSpliceRemove (cloneNodeM f st p true).1.domChildren
      (jsIndexOf (cloneNodeM f st p true).1.domChildren c) 1 = _
    rw [s2]
    rw [show jsIndexOf st.domChildren c = (j : Int) by simp [jsIndexOf, hj]]
    exact jsSpliceRemove_at (Nat.le_of_lt (natIdx_lt_length hj))

/-- C4, witness: the element `removeChild` clauses of the amended theorem
instantiated on concrete fixtures — the absent-target last-child deletion and
the present-target splice-out of the flattened index. -/
theorem claim4_witness :
    0 < fixPC.nextId ∧ ¬ (0 : Nat) = 2 ∧ (2 : Nat) ∉ (getNode fixPC 0).children ∧
    (getNode (elemRemoveChild 8 fixPC 0 2) 0).children =
      (getNode fixPC 0).children.dropLast ∧
    natIdx fixPC.domChildren 1 = some 0 ∧
    (elemRemoveChild 8 fixPC 0 1).domChildren =
      fixPC.domChildren.take 0 ++ fixPC.domChildren.drop 1 :=
  ⟨by decide, by decide, by decide,
    claim4_not_found.2.2.2.2.2.2.2.2.2.2.2.1 8 fixPC 0 2 (by decide) (by decide) (by decide),
    by decide,
    claim4_not_found.2.2.2.2.2.2.2.2.2.2.2.2.2.2.2 8 fixPC 0 1 0 (by decide)⟩

/-- C2, counterexample: `prepend` on a top-level receiver places the new node
in `topLevelNodes` *and* sets its `parentRef` to the receiver, leaving it in
none of the three states (not top-level: parent set; not attached: absent
from `allDescendants`; not removed: present in `topLevelNodes`). -/
theorem claim2_counterexample :
    fixTop.directChildren = [0] ∧ (getNode fixTop 1).parent = none ∧
    (elemPrepend 8 fixTop 0 1).2 = none ∧
    (elemPrepend 8 fixTop 0 1).1.directChildren = [1, 0] ∧
    (getNode (elemPrepend 8 fixTop 0 1).1 1).parent = some (some 0) ∧
    (1 : Nat) ∉ (elemPrepend 8 fixTop 0 1).1.domChildren ∧
    topLevelState (elemPrepend 8 fixTop 0 1).1 1 = false ∧
    attachedState (elemPrepend 8 fixTop 0 1).1 1 = false ∧
    removedState (elemPrepend 8 fixTop 0 1).1 1 = false ∧
    exactlyOneState (elemPrepend 8 fixTop 0 1).1 1 = false := by
  decide

theorem mem_listSet_self : ∀ (l : List Nat) (j x : Nat), j < l.length → x ∈ listSet l j x := by
  intro l
  induction l with
  | nil => intro j x h; simp at h
  | cons a as ih =>
    intro j x h
    cases j with
    | zero => simp [listSet]
    | succ j' =>
      simp only [listSet, List.mem_cons]
      exact Or.inr (ih j' x (by simpa using Nat.lt_of_succ_lt_succ h))

/-- C2 (amended): tree-level `appendChild` of a non-removed node and
`insertBefore` of a non-removed node with `parentRef` unset leave it
top-level; element-level `appendChild` leaves the child attached;
`removeChild` (tree-level and element-level) of a target held exactly once by
its collection and absent from the other leaves the target removed — in each
of these cases the node is in exactly one of the three states.  But the
classification is not preserved by every operation: `prepend` on a top-level
receiver places the new node in `topLevelNodes` while also setting its
`parentRef` to the receiver, and the tree's `replaceChild` of an
`allDescendants` member by a fresh node places the replacement in
`allDescendants` with `parentRef` unset — in both cases the affected node is
in none of the three states. -/
theorem claim2_membership_states :
    (∀ st c, (getNode st c).isRemoved = false →
      topLevelState (domAppendChild st c) c = true ∧
      exactlyOneState (domAppendChild st c) c = true) ∧
    (∀ st c ref, (getNode st c).isRemoved = false → parentUnset st c = true →
      topLevelState (domInsertBefore st c ref) c = true ∧
      exactlyOneState (domInsertBefore st c ref) c = true) ∧
    (∀ f st n c,
      attachedState (elemAppendChild f st n c) c = true ∧
      exactlyOneState (elemAppendChild f st n c) c = true) ∧
    (∀ st e i, natIdx st.directChildren e = some i → st.directChildren.count e ≤ 1 →
      e ∉ st.domChildren →
      removedState (domRemoveChild st e).1 e = true ∧
      exactlyOneState (domRemoveChild st e).1 e = true ∧
      (getNode (domRemoveChild st e).1 e).isRemoved = true) ∧
    (∀ f st p c j, natIdx st.domChildren c = some j → st.domChildren.count c ≤ 1 →
      c ∉ st.directChildren →
      removedState (elemRemoveChild f st p c) c = true ∧
      exactlyOneState (elemRemoveChild f st p c) c = true ∧
      (getNode (elemRemoveChild f st p c) c).isRemoved = true) ∧
    (∀ f st n el, n ∈ st.directChildren → el ∉ st.domChildren →
      topLevelState (elemPrepend f st n el).1 el = false ∧
      attachedState (elemPrepend f st n el).1 el = false ∧
      removedState (elemPrepend f st n el).1 el = false ∧
      exactlyOneState (elemPrepend f st n el).1 el = false) ∧
    (∀ st c old j, (getNode st c).isRemoved = false → natIdx st.directChildren old = none →
      natIdx st.domChildren old = some j → parentUnset st c = true → c ∉ st.directChildren →
      topLevelState (domReplaceChild st c old).1 c = false ∧
      attachedState (domReplaceChild st c old).1 c = false ∧
      removedState (domReplaceChild st c old).1 c = false ∧
      exactlyOneState (domReplaceChild st c old).1 c = false) := by
  refine ⟨?_, ?_, ?_, ?_, ?_, ?_, ?_⟩
  · intro st c hrem
    have hdc : (domAppendChild st c).directChildren = st.directChildren ++ [c] := by
      unfold domAppendChild
      rw [if_neg (by simp [hrem])]
      rfl
    have hch : (domAppendChild st c).domChildren = st.domChildren := by
      unfold domAppendChild
      rw [if_neg (by simp [hrem])]
      rfl
    have hpar : parentUnset (domAppendChild st c) c = true := by
      unfold domAppendChild
      rw [if_neg (by simp [hrem])]
      simp [parentUnset, getNode_setNode_self]
    have htl : topLevelState (domAppendChild st c) c = true := by
      simp [topLevelState, hdc, hpar]
    have hat : attachedState (domAppendChild st c) c = false := by
      simp [attachedState, hpar]
    have hrm : removedState (domAppendChild st c) c = false := by
      simp [removedState, hdc]
    exact ⟨htl, by simp [exactlyOneState, htl, hat, hrm]⟩
  · intro st c ref hrem hpu
    have hdc : (domInsertBefore st c ref).directChildren =
        jsSpliceInsert st.directChildren (jsIndexOf st.directChildren ref) c := by
      unfold domInsertBefore
      rw [if_neg (by simp [hrem])]
    have hnodes : (domInsertBefore st c ref).nodes = st.nodes := by
      unfold domInsertBefore
      rw [if_neg (by simp [hrem])]
    have hch : (domInsertBefore st c ref).domChildren = st.domChildren := by
      unfold domInsertBefore
      rw [if_neg (by simp [hrem])]
    have hpar : parentUnset (domInsertBefore st c ref) c = true := by
      unfold parentUnset getNode
      rw [hnodes]
      exact hpu
    have htl : topLevelState (domInsertBefore st c ref) c = true := by
      simp [topLevelState, hdc, hpar, mem_jsSpliceInsert_self]
    have hat : attachedState (domInsertBefore st c ref) c = false := by
      simp [attachedState, hpar]
    have hrm : removedState (domInsertBefore st c ref) c = false := by
      simp [removedState, hdc, mem_jsSpliceInsert_self]
    exact ⟨htl, by simp [exactlyOneState, htl, hat, hrm]⟩
  · intro f st n c
    have hch : (elemAppendChild f st n c).domChildren =
        (setNode (setNode (cloneNodeM f st n true).1 n
          { getNode (cloneNodeM f st n true).1 n with
              children := (getNode (cloneNodeM f st n true).1 n).children ++ [c] }) c
          { getNode (setNode (cloneNodeM f st n true).1 n
              { getNode (cloneNodeM f st n true).1 n with
                  children := (getNode (cloneNodeM f st n true).1 n).children ++ [c] }) c
            with parent := some (some n) }).domChildren ++ [c] := rfl
    have hpar : parentUnset (elemAppendChild f st n c) c = false := by
      have hgc : getNode (elemAppendChild f st n c) c =
          { getNode (setNode (cloneNodeM f st n true).1 n
              { getNode (cloneNodeM f st n true).1 n with
                  children := (getNode (cloneNodeM f st n true).1 n).children ++ [c] }) c
            with parent := some (some n) } := by
        show getNode (setNode _ c _) c = _
        exact getNode_setNode_self _ _ _
      unfold parentUnset
      rw [hgc]
    have hmemch : c ∈ (elemAppendChild f st n c).domChildren := by
      rw [hch]
      simp
    have hat : attachedState (elemAppendChild f st n c) c = true := by
      simp [attachedState, hpar, hmemch]
    have htl : topLevelState (elemAppendChild f st n c) c = false := by
      simp [topLevelState, hpar]
    have hrm : removedState (elemAppendChild f st n c) c = false := by
      simp [removedState, hmemch]
    exact ⟨hat, by simp [exactlyOneState, htl, hat, hrm]⟩
  · intro st e i hi hcount hnotch
    have hdc : (domRemoveChild st e).1.directChildren =
        jsSpliceRemove st.directChildren (i : Int) 1 := by
      unfold domRemoveChild
      simp only [hi]
      rfl
    have hch : (domRemoveChild st e).1.domChildren = st.domChildren := by
      unfold domRemoveChild
      simp only [hi]
      rfl
    have hnm : e ∉ (domRemoveChild st e).1.directChildren := by
      rw [hdc]
      exact not_mem_jsSpliceRemove hi hcount
    have hrm : removedState (domRemoveChild st e).1 e = true := by
      simp [removedState, hch, hnm, hnotch]
    have htl : topLevelState (domRemoveChild st e).1 e = false := by
      simp [topLevelState, hnm]
    have hat : attachedState (domRemoveChild st e).1 e = false := by
      simp [attachedState, hch, hnotch]
    refine ⟨hrm, by simp [exactlyOneState, htl, hat, hrm], ?_⟩
    unfold domRemoveChild
    simp only [hi]
    simp
  · intro f st p c j hj hcount hnotdc
    obtain ⟨s1, s2, s3, s4, s5, s6, s7, s8, s9, s10, s11⟩ := cloneNodeM_spec f st p
    have hch : (elemRemoveChild f st p c).domChildren =
        jsSpliceRemove st.domChildren (j : Int) 1 := by
      show jsSpliceRemove (cloneNodeM f st p true).1.domChildren
        (jsIndexOf (cloneNodeM f st p true).1.domChildren c) 1 = _
      rw [s2]
      rw [show jsIndexOf st.domChildren c = (j : Int) by simp [jsIndexOf, hj]]
    have hdc : (elemRemoveChild f st p c).directChildren = st.directChildren := by
      show (cloneNodeM f st p true).1.directChildren = _
      exact s1
    have hnm : c ∉ (elemRemoveChild f st p c).domChildren := by
      rw [hch]
      exact not_mem_jsSpliceRemove hj hcount
    have hrm : removedState (elemRemoveChild f st p c) c = true := by
      simp [removedState, hdc, hnm, hnotdc]
    have htl : topLevelState (elemRemoveChild f st p c) c = false := by
      simp [topLevelState, hdc, hnotdc]
    have hat : attachedState (elemRemoveChild f st p c) c = false := by
      simp [attachedState, hnm]
    refine ⟨hrm, by simp [exactlyOneState, htl, hat, hrm], ?_⟩
    show (getNode (setNode (setNode (cloneNodeM f st p true).1 p
        { getNode (cloneNodeM f st p true).1 p with
            children := jsSpliceRemove (getNode (cloneNodeM f st p true).1 p).children
              (jsIndexOf (getNode (cloneNodeM f st p true).1 p).children c) 1 }) c
        { getNode (setNode (cloneNodeM f st p true).1 p
            { getNode (cloneNodeM f st p true).1 p with
                children := jsSpliceRemove (getNode (cloneNodeM f st p true).1 p).children
                  (jsIndexOf (getNode (cloneNodeM f st p true).1 p).children c) 1 }) c
          with isRemoved := true }) c).isRemoved = true
    rw [getNode_setNode_self]
  · intro f st n el hn hel
    obtain ⟨s1, s2, s3, s4, s5, s6, s7, s8, s9, s10, s11⟩ := cloneNodeM_spec f st n
    have hcond : n ∈ (cloneNodeM f st n true).1.directChildren := by
      rw [s1]
      exact hn
    have hdc : (elemPrepend f st n el).1.directChildren =
        jsSpliceInsert (cloneNodeM f st n true).1.directChildren
          (jsIndexOf (cloneNodeM f st n true).1.directChildren n) el := by
      unfold elemPrepend
      rw [if_pos hcond]
      rfl
    have hch : (elemPrepend f st n el).1.domChildren = st.domChildren := by
      unfold elemPrepend
      rw [if_pos hcond]
      exact s2
    have hpar : parentUnset (elemPrepend f st n el).1 el = false := by
      unfold elemPrepend
      rw [if_pos hcond]
      unfold parentUnset
      rw [show getNode (notifyTreeChange (setNode _ el _) n (cloneNodeM f st n true).2) el =
        getNode (setNode _ el
          { getNode ({ (cloneNodeM f st n true).1 with
              directChildren := jsSpliceInsert (cloneNodeM f st n true).1.directChildren
                (jsIndexOf (cloneNodeM f st n true).1.directChildren n) el }) el
            with parent := some (some n) }) el from rfl]
      rw [getNode_setNode_self]
    have hmel : el ∈ (elemPrepend f st n el).1.directChildren := by
      rw [hdc]
      exact mem_jsSpliceInsert_self _ _ _
    have htl : topLevelState (elemPrepend f st n el).1 el = false := by
      simp [topLevelState, hpar]
    have hat : attachedState (elemPrepend f st n el).1 el = false := by
      simp [attachedState, hch, hel]
    have hrm : removedState (elemPrepend f st n el).1 el = false := by
      simp [removedState, hmel]
    exact ⟨htl, hat, hrm, by simp [exactlyOneState, htl, hat, hrm]⟩
  · intro st c old j hrem h1 hj hpu hcnot
    have heq : domReplaceChild st c old =
        ({ st with domChildren := listSet st.domChildren j c }, none) := by
      unfold domReplaceChild
      rw [if_neg (by simp [hrem])]
      simp only [h1, hj]
    have hdc : (domReplaceChild st c old).1.directChildren = st.directChildren := by
      rw [heq]
    have hch : (domReplaceChild st c old).1.domChildren = listSet st.domChildren j c := by
      rw [heq]
    have hpar : parentUnset (domReplaceChild st c old).1 c = true := by
      rw [heq]
      unfold parentUnset getNode
      exact hpu
    have hmch : c ∈ (domReplaceChild st c old).1.domChildren := by
      rw [hch]
      exact mem_listSet_self _ _ _ (natIdx_lt_length hj)
    have htl : topLevelState (domReplaceChild st c old).1 c = false := by
      simp [topLevelState, hdc, hcnot]
    have hat : attachedState (domReplaceChild st c old).1 c = false := by
      simp [attachedState, hpar]
    have hrm : removedState (domReplaceChild st c old).1 c = false := by
      simp [removedState, hmch]
    exact ⟨htl, hat, hrm, by simp [exactlyOneState, htl, hat, hrm]⟩

/-- C2, witness: the element `appendChild` clause (attached, exactly one
state) instantiated concretely, together with the tree `appendChild` clause. -/
theorem claim2_witness :
    (attachedState (elemAppendChild 8 fix3 0 1) 1 = true ∧
      exactlyOneState (elemAppendChild 8 fix3 0 1) 1 = true) ∧
    ((getNode fix3 0).isRemoved = false ∧
      topLevelState (domAppendChild fix3 0) 0 = true ∧
      exactlyOneState (domAppendChild fix3 0) 0 = true) :=
  ⟨claim2_membership_states.2.2.1 8 fix3 0 1,
    ⟨by decide,
      (claim2_membership_states.1 fix3 0 (by decide)).1,
      (claim2_membership_states.1 fix3 0 (by decide)).2⟩⟩

theorem wfN_lt {f : Nat} {st : DomState} {k : Nat} (h : wfN f st k = true) :
    k < st.nextId := by
  cases f with
  | zero => simp [wfN] at h
  | succ f =>
    rw [wfN_succ] at h
    simp only [Bool.and_eq_true, decide_eq_true_eq] at h
    exact h.1.1

theorem rangeN_ge {q b f : Nat} {st : DomState} {k : Nat} (h : rangeN q b f st k = true) :
    q ≤ k := by
  cases f with
  | zero =>
    simp only [rangeN, Bool.and_eq_true, decide_eq_true_eq] at h
    exact h.1
  | succ f =>
    rw [rangeN_succ] at h
    simp only [Bool.and_eq_true, decide_eq_true_eq] at h
    exact h.1.1

/-- C3, counterexample: the clone's `attributes` is the *same* storage as the
original's (`_duringClone().setAttributes` assigns the object by reference,
not a shallow copy), so setting an attribute on the clone is visible on the
original node. -/
theorem claim3_counterexample :
    (getNode (cloneNodeM 8 fixBtn 0 true).1 (cloneNodeM 8 fixBtn 0 true).2).attrsId =
      (getNode (cloneNodeM 8 fixBtn 0 true).1 0).attrsId ∧
    getAttributeM fixBtn 0 ("k") = none ∧
    getAttributeM
      (setAttributeM 8 (cloneNodeM 8 fixBtn 0 true).1 (cloneNodeM 8 fixBtn 0 true).2 ("k") ("v"))
      0 ("k") = some ("v") := by
  decide

/-- C3 (amended): `cloneNode(true)` on a well-formed node returns a fresh
node (never a member of the tree's collections) with the same `tagName`,
`parentRef` and text, an attributes mapping that is value-equal because it is
the *same shared storage* as the original's (so mutations through either are
visible in both — not independent), and children that are deep-value-equal
but reference-distinct from the original's; cloning fires no tree-change
notification. -/
theorem claim3_cloneNode :
    ∀ f st n, wfN (f + 1) st n = true →
      (∀ x, x ∈ st.directChildren → x < st.nextId) →
      (∀ x, x ∈ st.domChildren → x < st.nextId) →
      (cloneNodeM f st n true).2 = st.nextId ∧
      (getNode (cloneNodeM f st n true).1 st.nextId).tagName = (getNode st n).tagName ∧
      (getNode (cloneNodeM f st n true).1 st.nextId).attrsId = (getNode st n).attrsId ∧
      (getNode (cloneNodeM f st n true).1 st.nextId).parent = (getNode st n).parent ∧
      (getNode (cloneNodeM f st n true).1 st.nextId).text = (getNode st n).text ∧
      getAttrs (cloneNodeM f st n true).1 st.nextId = getAttrs (cloneNodeM f st n true).1 n ∧
      aval (f + 1) (cloneNodeM f st n true).1 st.nextId = aval (f + 1) st n ∧
      (∀ k, k ∈ (getNode (cloneNodeM f st n true).1 st.nextId).children →
        k ∉ (getNode st n).children) ∧
      (cloneNodeM f st n true).1.directChildren = st.directChildren ∧
      (cloneNodeM f st n true).1.domChildren = st.domChildren ∧
      st.nextId ∉ (cloneNodeM f st n true).1.directChildren ∧
      st.nextId ∉ (cloneNodeM f st n true).1.domChildren ∧
      (cloneNodeM f st n true).1.notifications = st.notifications := by
  intro f st n hwf hdc hch
  obtain ⟨s1, s2, s3, s4, s5, s6, s7, s8, s9, s10, s11⟩ := cloneNodeM_spec f st n
  have hnlt : n < st.nextId := by
    rw [wfN_succ] at hwf
    simp only [Bool.and_eq_true, decide_eq_true_eq] at hwf
    exact hwf.1.1
  have hgn : getNode (cloneNodeM f st n true).1 n = getNode st n :=
    getNode_congr (s5 n hnlt)
  have hattrs : getAttrs (cloneNodeM f st n true).1 st.nextId =
      getAttrs (cloneNodeM f st n true).1 n := by
    unfold getAttrs
    rw [s8, hgn]
  have hkids : ∀ k, k ∈ (getNode (cloneNodeM f st n true).1 st.nextId).children →
      k ∉ (getNode st n).children := by
    intro k hk hk'
    -- the clone's children are fresh (ids ≥ st.nextId), the original's are old
    have hrange := cloneNodeM_range f st n
    rw [rangeN_succ] at hrange
    simp only [Bool.and_eq_true, decide_eq_true_eq, List.all_eq_true] at hrange
    have hge : st.nextId ≤ k := rangeN_ge (hrange.2 k hk)
    rw [wfN_succ] at hwf
    simp only [Bool.and_eq_true, decide_eq_true_eq, List.all_eq_true] at hwf
    have hlt : k < st.nextId := wfN_lt (hwf.2 k hk')
    omega
  refine ⟨cloneNodeM_snd f st n true, s7, s8, s9, s10, hattrs,
    cloneNodeM_aval f st n hwf, hkids, s1, s2, ?_, ?_, s3⟩
  · rw [s1]
    intro hmem
    exact absurd (hdc _ hmem) (by omega)
  · rw [s2]
    intro hmem
    exact absurd (hch _ hmem) (by omega)

/-- C3, witness: the amended clone theorem instantiated on the concrete
three-level fixture. -/
theorem claim3_witness :
    wfN 9 fixDeep 0 = true ∧
    aval 9 (cloneNodeM 8 fixDeep 0 true).1 fixDeep.nextId = aval 9 fixDeep 0 ∧
    (getNode (cloneNodeM 8 fixDeep 0 true).1 fixDeep.nextId).attrsId =
      (getNode fixDeep 0).attrsId ∧
    fixDeep.nextId ∉ (cloneNodeM 8 fixDeep 0 true).1.domChildren :=
  ⟨by decide,
    (claim3_cloneNode 8 fixDeep 0 (by decide) (by decide) (by decide)).2.2.2.2.2.2.1,
    (claim3_cloneNode 8 fixDeep 0 (by decide) (by decide) (by decide)).2.2.1,
    (claim3_cloneNode 8 fixDeep 0 (by decide) (by decide) (by decide)).2.2.2.2.2.2.2.2.2.2.2.1⟩

/-! ## Helper lemmas for the mutation/notification claim -/

theorem recGet_recSet_self : ∀ (m : List (String × String)) (k v : String),
    recGet (recSet m k v) k = some v := by
  intro m k v
  induction m with
  | nil => simp [recSet, recGet]
  | cons p rest ih =>
    by_cases hk : k = p.1
    · simp [recSet, recGet, hk]
    · simp only [recSet]
      rw [if_neg hk]
      simp only [recGet]
      rw [if_neg hk]
      exact ih

theorem recGet_recDelete_self : ∀ (m : List (String × String)) (k : String),
    recGet (recDelete m k) k = none := by
  intro m k
  induction m with
  | nil => rfl
  | cons p rest ih =>
    by_cases hk : p.1 = k
    · simp only [recDelete, List.filter]
      rw [show (!(p.1 = k : Bool)) = false by simp [hk]]
      exact ih
    · simp only [recDelete, List.filter]
      rw [show (!(p.1 = k : Bool)) = true by simp [hk]]
      simp only [recGet]
      rw [if_neg (fun h => hk h.symm)]
      exact ih

/-- Transport of the snapshot's structural value from the clone state to any
later state whose fresh-id lookups are unchanged. -/
theorem snapshot_aval (f : Nat) (st : DomState) (n : Nat) {st₂ : DomState}
    (hwf : wfN (f + 1) st n = true)
    (hlk : ∀ i, st.nextId ≤ i → i < (cloneNodeM f st n true).1.nextId →
      hLookup st₂.nodes i = hLookup (cloneNodeM f st n true).1.nodes i) :
    aval (f + 1) st₂ st.nextId = aval (f + 1) st n := by
  rw [aval_frame_range hlk (f + 1) st.nextId (cloneNodeM_range f st n)]
  exact cloneNodeM_aval f st n hwf

/-- The snapshot's attribute pointer, in any later state whose lookup of the
snapshot id is unchanged, is the original node's (shared storage). -/
theorem snapshot_attrsId (f : Nat) (st : DomState) (n : Nat) {st₂ : DomState}
    (hlk : hLookup st₂.nodes st.nextId = hLookup (cloneNodeM f st n true).1.nodes st.nextId) :
    (getNode st₂ st.nextId).attrsId = (getNode st n).attrsId := by
  rw [getNode_congr hlk]
  exact (cloneNodeM_spec f st n).2.2.2.2.2.2.2.1

/-- C1, counterexample: (a) `remove()` on a node attached under an element
parent delivers *two* notifications (the parent's `removeChild` notifies,
then `remove` notifies again); (b) the snapshot passed by `setAttribute`
shares the node's attribute storage, so it reflects the *post*-mutation
attributes, not the pre-mutation state. -/
theorem claim1_counterexample :
    fixPC.notifications.length = 1 ∧
    (getNode fixPC 1).parent = some (some 0) ∧
    (elemRemove 8 fixPC 1).2 = none ∧
    (elemRemove 8 fixPC 1).1.notifications.length = 3 ∧
    (setAttributeM 8 fixBtn 0 ("a") ("1")).notifications = [(0, 1)] ∧
    getAttributeM fixBtn 0 ("a") = none ∧
    getAttributeM (setAttributeM 8 fixBtn 0 ("a") ("1")) 1 ("a") = some ("1") := by
  decide

/-- C1 (amended): every §4.2 mutation, on its success path, delivers exactly
one notification `(node, snapshot)` where the snapshot is a fresh clone taken
before mutating — except `remove()` on a node attached under an element
parent, which delivers two (the parent's `removeChild` notification first,
then the node's own); `prepend` on a node with neither tree nor element
parent throws and delivers none.  The element's `removeChild` itself always
succeeds and delivers exactly one notification, with the receiving parent as
`current` and a fresh clone of the parent as the snapshot, marking the
argument removed.  The snapshot's structural value (tag, text
and children, recursively) equals the node's pre-mutation value, but its
attribute storage is the node's own (shared), so after `setAttribute` /
`removeAttribute` the snapshot reads the post-mutation attributes.  The
`current` argument is the mutated node itself, whose state reflects the
mutation. -/
theorem claim1_mutation_notifications :
    (∀ f st n name value, wfN (f + 1) st n = true →
      (setAttributeM f st n name value).notifications =
        st.notifications ++ [(n, st.nextId)] ∧
      aval (f + 1) (setAttributeM f st n name value) st.nextId = aval (f + 1) st n ∧
      (getNode (setAttributeM f st n name value) st.nextId).attrsId =
        (getNode st n).attrsId ∧
      getAttributeM (setAttributeM f st n name value) n name = some value ∧
      getAttributeM (setAttributeM f st n name value) st.nextId name = some value) ∧
    (∀ f st n name, wfN (f + 1) st n = true →
      (removeAttributeM f st n name).notifications = st.notifications ++ [(n, st.nextId)] ∧
      aval (f + 1) (removeAttributeM f st n name) st.nextId = aval (f + 1) st n ∧
      getAttributeM (removeAttributeM f st n name) n name = none ∧
      getAttributeM (removeAttributeM f st n name) st.nextId name = none) ∧
    (∀ f st n c, wfN (f + 1) st n = true → c < st.nextId → ¬ n = c →
      (elemAppendChild f st n c).notifications = st.notifications ++ [(n, st.nextId)] ∧
      aval (f + 1) (elemAppendChild f st n c) st.nextId = aval (f + 1) st n ∧
      (getNode (elemAppendChild f st n c) st.nextId).attrsId = (getNode st n).attrsId ∧
      (getNode (elemAppendChild f st n c) n).children = (getNode st n).children ++ [c] ∧
      (getNode (elemAppendChild f st n c) c).parent = some (some n) ∧
      (elemAppendChild f st n c).domChildren = st.domChildren ++ [c]) ∧
    (∀ f st n c old, wfN (f + 1) st n = true → c < st.nextId →
      old ∈ (getNode st n).children →
      (elemReplaceChild f st n c old).2 = none ∧
      (elemReplaceChild f st n c old).1.notifications =
        st.notifications ++ [(n, st.nextId)] ∧
      aval (f + 1) (elemReplaceChild f st n c old).1 st.nextId = aval (f + 1) st n ∧
      (getNode (elemReplaceChild f st n c old).1 st.nextId).attrsId =
        (getNode st n).attrsId) ∧
    (∀ f st n el, wfN (f + 1) st n = true → n ∈ st.directChildren → el < st.nextId →
      (elemPrepend f st n el).2 = none ∧
      (elemPrepend f st n el).1.notifications = st.notifications ++ [(n, st.nextId)] ∧
      aval (f + 1) (elemPrepend f st n el).1 st.nextId = aval (f + 1) st n ∧
      (getNode (elemPrepend f st n el).1 st.nextId).attrsId = (getNode st n).attrsId) ∧
    (∀ f st n el par, wfN (f + 1) st n = true → n ∉ st.directChildren →
      (getNode st n).parent = some (some par) → par < st.nextId →
      (elemPrepend f st n el).2 = none ∧
      (elemPrepend f st n el).1.notifications = st.notifications ++ [(n, st.nextId)] ∧
      aval (f + 1) (elemPrepend f st n el).1 st.nextId = aval (f + 1) st n ∧
      (getNode (elemPrepend f st n el).1 st.nextId).attrsId = (getNode st n).attrsId) ∧
    (∀ f st n el, n < st.nextId → n ∉ st.directChildren →
      ((getNode st n).parent = none ∨ (getNode st n).parent = some none) →
      ((elemPrepend f st n el).2).isSome = true ∧
      (elemPrepend f st n el).1.notifications = st.notifications) ∧
    (∀ f st n i, wfN (f + 1) st n = true → natIdx st.directChildren n = some i →
      (elemRemove f st n).2 = none ∧
      (elemRemove f st n).1.notifications = st.notifications ++ [(n, st.nextId)] ∧
      aval (f + 1) (elemRemove f st n).1 st.nextId = aval (f + 1) st n ∧
      (getNode (elemRemove f st n).1 st.nextId).attrsId = (getNode st n).attrsId ∧
      (getNode (elemRemove f st n).1 n).isRemoved = true) ∧
    (∀ f st n par, wfN (f + 1) st n = true → n ∉ st.directChildren →
      (getNode st n).parent = some (some par) → par < st.nextId →
      (elemRemove f st n).2 = none ∧
      (∃ c2, (elemRemove f st n).1.notifications =
        st.notifications ++ [(par, c2), (n, st.nextId)]) ∧
      aval (f + 1) (elemRemove f st n).1 st.nextId = aval (f + 1) st n ∧
      (getNode (elemRemove f st n).1 st.nextId).attrsId = (getNode st n).attrsId ∧
      (getNode (elemRemove f st n).1 n).isRemoved = true) ∧
    (∀ f st n, wfN (f + 1) st n = true → n ∉ st.directChildren →
      ((getNode st n).parent = none ∨ (getNode st n).parent = some none) →
      (elemRemove f st n).2 = none ∧
      (elemRemove f st n).1.notifications = st.notifications ++ [(n, st.nextId)] ∧
      aval (f + 1) (elemRemove f st n).1 st.nextId = aval (f + 1) st n ∧
      (getNode (elemRemove f st n).1 st.nextId).attrsId = (getNode st n).attrsId ∧
      (getNode (elemRemove f st n).1 n).isRemoved = true) ∧
    (∀ f st p c, wfN (f + 1) st p = true → c < st.nextId →
      (elemRemoveChild f st p c).notifications = st.notifications ++ [(p, st.nextId)] ∧
      aval (f + 1) (elemRemoveChild f st p c) st.nextId = aval (f + 1) st p ∧
      (getNode (elemRemoveChild f st p c) st.nextId).attrsId = (getNode st p).attrsId ∧
      (getNode (elemRemoveChild f st p c) c).isRemoved = true) ∧
    (∀ f st n c, wfN (f + 1) st n = true →
      (setFirstChild f st n c).notifications = st.notifications ++ [(n, st.nextId)] ∧
      aval (f + 1) (setFirstChild f st n c) st.nextId = aval (f + 1) st n ∧
      (getNode (setFirstChild f st n c) st.nextId).attrsId = (getNode st n).attrsId ∧
      (getNode (setFirstChild f st n c) n).children =
        jsSetAt (getNode st n).children 0 c) ∧
    (∀ f st n c, wfN (f + 1) st n = true →
      (setLastChild f st n c).notifications = st.notifications ++ [(n, st.nextId)] ∧
      aval (f + 1) (setLastChild f st n c) st.nextId = aval (f + 1) st n ∧
      (getNode (setLastChild f st n c) st.nextId).attrsId = (getNode st n).attrsId ∧
      (getNode (setLastChild f st n c) n).children =
        jsSetAt (getNode st n).children ((getNode st n).children.length - 1 : Int) c) ∧
    (∀ f st n v, wfN (f + 1) st n = true →
      (setInnerText f st n v).notifications = st.notifications ++ [(n, st.nextId)] ∧
      aval (f + 1) (setInnerText f st n v) st.nextId = aval (f + 1) st n ∧
      (getNode (setInnerText f st n v) st.nextId).attrsId = (getNode st n).attrsId ∧
      (getNode (setInnerText f st n v) st.nextId).text = (getNode st n).text ∧
      (getNode (setInnerText f st n v) n).text = v) ∧
    (∀ f st n v, setTextContent f st n v = setInnerText f st n v) := by
  refine ⟨?_, ?_, ?_, ?_, ?_, ?_, ?_, ?_, ?_, ?_, ?_, ?_, ?_, ?_, ?_⟩
  · -- setAttribute
    intro f st n name value hwf
    obtain ⟨s1, s2, s3, s4, s5, s6, s7, s8, s9, s10, s11⟩ := cloneNodeM_spec f st n
    have hnlt : n < st.nextId := wfN_lt hwf
    have hgn : getNode (cloneNodeM f st n true).1 n = getNode st n := getNode_congr (s5 n hnlt)
    have hnot : (setAttributeM f st n name value).notifications =
        (cloneNodeM f st n true).1.notifications ++ [(n, st.nextId)] := rfl
    have haval := @snapshot_aval f st n (setAttributeM f st n name value) hwf
      (fun i _ _ => rfl)
    have hattrsId := @snapshot_attrsId f st n (setAttributeM f st n name value) rfl
    have hga : getAttrs (setAttributeM f st n name value) n =
        recSet (getAttrs (cloneNodeM f st n true).1 n) name value := by
      show (hLookup (hSet (cloneNodeM f st n true).1.attrs
          ((getNode (cloneNodeM f st n true).1 n).attrsId)
          (recSet (getAttrs (cloneNodeM f st n true).1 n) name value))
          ((getNode (cloneNodeM f st n true).1 n).attrsId)).getD [] = _
      rw [hLookup_hSet_self]
      rfl
    have hgacid : getAttrs (setAttributeM f st n name value) st.nextId =
        recSet (getAttrs (cloneNodeM f st n true).1 n) name value := by
      unfold getAttrs
      rw [show (getNode (setAttributeM f st n name value) st.nextId).attrsId =
          (getNode (cloneNodeM f st n true).1 n).attrsId from by rw [hattrsId, ← hgn]]
      show (hLookup (hSet (cloneNodeM f st n true).1.attrs
          ((getNode (cloneNodeM f st n true).1 n).attrsId)
          (recSet (getAttrs (cloneNodeM f st n true).1 n) name value))
          ((getNode (cloneNodeM f st n true).1 n).attrsId)).getD [] = _
      rw [hLookup_hSet_self]
      rfl
    refine ⟨by rw [hnot, s3], haval, hattrsId, ?_, ?_⟩
    · show recGet (getAttrs (setAttributeM f st n name value) n) name = some value
      rw [hga]
      exact recGet_recSet_self _ _ _
    · show recGet (getAttrs (setAttributeM f st n name value) st.nextId) name = some value
      rw [hgacid]
      exact recGet_recSet_self _ _ _
  · -- removeAttribute
    intro f st n name hwf
    obtain ⟨s1, s2, s3, s4, s5, s6, s7, s8, s9, s10, s11⟩ := cloneNodeM_spec f st n
    have hnlt : n < st.nextId := wfN_lt hwf
    have hgn : getNode (cloneNodeM f st n true).1 n = getNode st n := getNode_congr (s5 n hnlt)
    have hnot : (removeAttributeM f st n name).notifications =
        (cloneNodeM f st n true).1.notifications ++ [(n, st.nextId)] := rfl
    have haval := @snapshot_aval f st n (removeAttributeM f st n name) hwf
      (fun i _ _ => rfl)
    have hattrsId := @snapshot_attrsId f st n (removeAttributeM f st n name) rfl
    have hga : getAttrs (removeAttributeM f st n name) n =
        recDelete (getAttrs (cloneNodeM f st n true).1 n) name := by
      show (hLookup (hSet (cloneNodeM f st n true).1.attrs
          ((getNode (cloneNodeM f st n true).1 n).attrsId)
          (recDelete (getAttrs (cloneNodeM f st n true).1 n) name))
          ((getNode (cloneNodeM f st n true).1 n).attrsId)).getD [] = _
      rw [hLookup_hSet_self]
      rfl
    have hgacid : getAttrs (removeAttributeM f st n name) st.nextId =
        recDelete (getAttrs (cloneNodeM f st n true).1 n) name := by
      unfold getAttrs
      rw [show (getNode (removeAttributeM f st n name) st.nextId).attrsId =
          (getNode (cloneNodeM f st n true).1 n).attrsId from by rw [hattrsId, ← hgn]]
      show (hLookup (hSet (cloneNodeM f st n true).1.attrs
          ((getNode (cloneNodeM f st n true).1 n).attrsId)
          (recDelete (getAttrs (cloneNodeM f st n true).1 n) name))
          ((getNode (cloneNodeM f st n true).1 n).attrsId)).getD [] = _
      rw [hLookup_hSet_self]
      rfl
    refine ⟨by rw [hnot, s3], haval, ?_, ?_⟩
    · show recGet (getAttrs (removeAttributeM f st n name) n) name = none
      rw [hga]
      exact recGet_recDelete_self _ _
    · show recGet (getAttrs (removeAttributeM f st n name) st.nextId) name = none
      rw [hgacid]
      exact recGet_recDelete_self _ _
  · -- element appendChild
    intro f st n c hwf hc hnc
    obtain ⟨s1, s2, s3, s4, s5, s6, s7, s8, s9, s10, s11⟩ := cloneNodeM_spec f st n
    have hnlt : n < st.nextId := wfN_lt hwf
    have hgn : getNode (cloneNodeM f st n true).1 n = getNode st n := getNode_congr (s5 n hnlt)
    have hnot : (elemAppendChild f st n c).notifications =
        (cloneNodeM f st n true).1.notifications ++ [(n, st.nextId)] := rfl
    have hlk : ∀ i, st.nextId ≤ i → i < (cloneNodeM f st n true).1.nextId →
        hLookup (elemAppendChild f st n c).nodes i =
        hLookup (cloneNodeM f st n true).1.nodes i := by
      intro i hi1 hi2
      show hLookup (hSet (hSet (cloneNodeM f st n true).1.nodes n _) c _) i = _
      rw [hLookup_hSet_ne _ _ (by omega), hLookup_hSet_ne _ _ (by omega)]
    have haval := @snapshot_aval f st n (elemAppendChild f st n c) hwf hlk
    have hattrsId := @snapshot_attrsId f st n (elemAppendChild f st n c)
      (hlk st.nextId (le_refl _) s4)
    refine ⟨by rw [hnot, s3], haval, hattrsId, ?_, ?_, ?_⟩
    · show (getNode (setNode (setNode (cloneNodeM f st n true).1 n
          { getNode (cloneNodeM f st n true).1 n with
              children := (getNode (cloneNodeM f st n true).1 n).children ++ [c] }) c
          { getNode (setNode (cloneNodeM f st n true).1 n
              { getNode (cloneNodeM f st n true).1 n with
                  children := (getNode (cloneNodeM f st n true).1 n).children ++ [c] }) c
            with parent := some (some n) }) n).children = (getNode st n).children ++ [c]
      rw [getNode_setNode_ne _ _ hnc, getNode_setNode_self, hgn]
    · show (getNode (setNode (setNode (cloneNodeM f st n true).1 n
          { getNode (cloneNodeM f st n true).1 n with
              children := (getNode (cloneNodeM f st n true).1 n).children ++ [c] }) c
          { getNode (setNode (cloneNodeM f st n true).1 n
              { getNode (cloneNodeM f st n true).1 n with
                  children := (getNode (cloneNodeM f st n true).1 n).children ++ [c] }) c
            with parent := some (some n) }) c).parent = some (some n)
      rw [getNode_setNode_self]
    · show (cloneNodeM f st n true).1.domChildren ++ [c] = st.domChildren ++ [c]
      rw [s2]
  · -- element replaceChild (success path)
    intro f st n c old hwf hc hold
    obtain ⟨s1, s2, s3, s4, s5, s6, s7, s8, s9, s10, s11⟩ := cloneNodeM_spec f st n
    have hnlt : n < st.nextId := wfN_lt hwf
    have herr : (elemReplaceChild f st n c old).2 = none := by
      unfold elemReplaceChild
      rw [if_pos hold]
    have hnot : (elemReplaceChild f st n c old).1.notifications =
        st.notifications ++ [(n, st.nextId)] := by
      unfold elemReplaceChild
      rw [if_pos hold]
      show (cloneNodeM f st n true).1.notifications ++ [(n, st.nextId)] = _
      rw [s3]
    have hlk : ∀ i, st.nextId ≤ i → i < (cloneNodeM f st n true).1.nextId →
        hLookup (elemReplaceChild f st n c old).1.nodes i =
        hLookup (cloneNodeM f st n true).1.nodes i := by
      intro i hi1 hi2
      unfold elemReplaceChild
      rw [if_pos hold]
      show hLookup (hSet (hSet (cloneNodeM f st n true).1.nodes n _) c _) i = _
      rw [hLookup_hSet_ne _ _ (by omega), hLookup_hSet_ne _ _ (by omega)]
    exact ⟨herr, hnot, @snapshot_aval f st n (elemReplaceChild f st n c old).1 hwf hlk,
      @snapshot_attrsId f st n (elemReplaceChild f st n c old).1
        (hlk st.nextId (le_refl _) s4)⟩
  · -- prepend, top-level branch
    intro f st n el hwf hn hel
    obtain ⟨s1, s2, s3, s4, s5, s6, s7, s8, s9, s10, s11⟩ := cloneNodeM_spec f st n
    have hnlt : n < st.nextId := wfN_lt hwf
    have hcond : n ∈ (cloneNodeM f st n true).1.directChildren := by
      rw [s1]; exact hn
    have herr : (elemPrepend f st n el).2 = none := by
      unfold elemPrepend
      rw [if_pos hcond]
    have hnot : (elemPrepend f st n el).1.notifications =
        st.notifications ++ [(n, st.nextId)] := by
      unfold elemPrepend
      rw [if_pos hcond]
      show (cloneNodeM f st n true).1.notifications ++ [(n, st.nextId)] = _
      rw [s3]
    have hlk : ∀ i, st.nextId ≤ i → i < (cloneNodeM f st n true).1.nextId →
        hLookup (elemPrepend f st n el).1.nodes i =
        hLookup (cloneNodeM f st n true).1.nodes i := by
      intro i hi1 hi2
      unfold elemPrepend
      rw [if_pos hcond]
      show hLookup (hSet (cloneNodeM f st n true).1.nodes el _) i = _
      rw [hLookup_hSet_ne _ _ (by omega)]
    exact ⟨herr, hnot, @snapshot_aval f st n (elemPrepend f st n el).1 hwf hlk,
      @snapshot_attrsId f st n (elemPrepend f st n el).1 (hlk st.nextId (le_refl _) s4)⟩
  · -- prepend, element-parent branch
    intro f st n el par hwf hn hpar hparlt
    obtain ⟨s1, s2, s3, s4, s5, s6, s7, s8, s9, s10, s11⟩ := cloneNodeM_spec f st n
    have hnlt : n < st.nextId := wfN_lt hwf
    have hgn : getNode (cloneNodeM f st n true).1 n = getNode st n := getNode_congr (s5 n hnlt)
    have hcond : n ∉ (cloneNodeM f st n true).1.directChildren := by
      rw [s1]; exact hn
    have hparC : (getNode (cloneNodeM f st n true).1 n).parent = some (some par) := by
      rw [hgn]; exact hpar
    have herr : (elemPrepend f st n el).2 = none := by
      unfold elemPrepend
      rw [if_neg hcond]
      simp only [hparC]
    have hnot : (elemPrepend f st n el).1.notifications =
        st.notifications ++ [(n, st.nextId)] := by
      unfold elemPrepend
      rw [if_neg hcond]
      simp only [hparC]
      show (cloneNodeM f st n true).1.notifications ++ [(n, st.nextId)] = _
      rw [s3]
    have hlk : ∀ i, st.nextId ≤ i → i < (cloneNodeM f st n true).1.nextId →
        hLookup (elemPrepend f st n el).1.nodes i =
        hLookup (cloneNodeM f st n true).1.nodes i := by
      intro i hi1 hi2
      unfold elemPrepend
      rw [if_neg hcond]
      simp only [hparC]
      show hLookup (hSet (cloneNodeM f st n true).1.nodes par _) i = _
      rw [hLookup_hSet_ne _ _ (by omega)]
    exact ⟨herr, hnot, @snapshot_aval f st n (elemPrepend f st n el).1 hwf hlk,
      @snapshot_attrsId f st n (elemPrepend f st n el).1 (hlk st.nextId (le_refl _) s4)⟩
  · -- prepend, no-parent branch: throws, no notification
    intro f st n el hnlt hn hpar
    obtain ⟨s1, s2, s3, s4, s5, s6, s7, s8, s9, s10, s11⟩ := cloneNodeM_spec f st n
    have hgn : getNode (cloneNodeM f st n true).1 n = getNode st n := getNode_congr (s5 n hnlt)
    have hcond : n ∉ (cloneNodeM f st n true).1.directChildren := by
      rw [s1]; exact hn
    rcases hpar with hp | hp
    · have hparC : (getNode (cloneNodeM f st n true).1 n).parent = none := by
        rw [hgn]; exact hp
      constructor
      · unfold elemPrepend
        rw [if_neg hcond]
        simp only [hparC]
        rfl
      · unfold elemPrepend
        rw [if_neg hcond]
        simp only [hparC]
        exact s3
    · have hparC : (getNode (cloneNodeM f st n true).1 n).parent = some none := by
        rw [hgn]; exact hp
      constructor
      · unfold elemPrepend
        rw [if_neg hcond]
        simp only [hparC]
        rfl
      · unfold elemPrepend
        rw [if_neg hcond]
        simp only [hparC]
        exact s3
  · -- remove, top-level branch
    intro f st n i hwf hi
    obtain ⟨s1, s2, s3, s4, s5, s6, s7, s8, s9, s10, s11⟩ := cloneNodeM_spec f st n
    have hnlt : n < st.nextId := wfN_lt hwf
    have hmem1 : n ∈ (cloneNodeM f st n true).1.directChildren := by
      rw [s1]; exact natIdx_mem hi
    have hni : natIdx (cloneNodeM f st n true).1.directChildren n = some i := by
      rw [s1]; exact hi
    have herr : (elemRemove f st n).2 = none := by
      unfold elemRemove
      rw [if_pos hmem1]
      unfold domRemoveChild
      simp only [hni]
    have hnot : (elemRemove f st n).1.notifications =
        st.notifications ++ [(n, st.nextId)] := by
      unfold elemRemove
      rw [if_pos hmem1]
      unfold domRemoveChild
      simp only [hni]
      show (cloneNodeM f st n true).1.notifications ++ [(n, st.nextId)] = _
      rw [s3]
    have hlk : ∀ i2, st.nextId ≤ i2 → i2 < (cloneNodeM f st n true).1.nextId →
        hLookup (elemRemove f st n).1.nodes i2 =
        hLookup (cloneNodeM f st n true).1.nodes i2 := by
      intro i2 hi1 hi2
      unfold elemRemove
      rw [if_pos hmem1]
      unfold domRemoveChild
      simp only [hni]
      show hLookup (hSet (cloneNodeM f st n true).1.nodes n _) i2 = _
      rw [hLookup_hSet_ne _ _ (by omega)]
    have hrmv : (getNode (elemRemove f st n).1 n).isRemoved = true := by
      unfold elemRemove
      rw [if_pos hmem1]
      unfold domRemoveChild
      simp only [hni]
      rw [show (getNode (notifyTreeChange (setNode
          { (cloneNodeM f st n true).1 with
              directChildren := jsSpliceRemove (cloneNodeM f st n true).1.directChildren
                (i : Int) 1 } n
          { getNode ({ (cloneNodeM f st n true).1 with
              directChildren := jsSpliceRemove (cloneNodeM f st n true).1.directChildren
                (i : Int) 1 }) n with isRemoved := true }) n (cloneNodeM f st n true).2) n) =
        { getNode ({ (cloneNodeM f st n true).1 with
            directChildren := jsSpliceRemove (cloneNodeM f st n true).1.directChildren
              (i : Int) 1 }) n with isRemoved := true } from getNode_setNode_self _ _ _]
    exact ⟨herr, hnot, @snapshot_aval f st n (elemRemove f st n).1 hwf hlk,
      @snapshot_attrsId f st n (elemRemove f st n).1 (hlk st.nextId (le_refl _) s4), hrmv⟩
  · -- remove, element-parent branch: two notifications
    intro f st n par hwf hn hpar hparlt
    obtain ⟨s1, s2, s3, s4, s5, s6, s7, s8, s9, s10, s11⟩ := cloneNodeM_spec f st n
    have hnlt : n < st.nextId := wfN_lt hwf
    have hgn : getNode (cloneNodeM f st n true).1 n = getNode st n := getNode_congr (s5 n hnlt)
    have hcond : n ∉ (cloneNodeM f st n true).1.directChildren := by
      rw [s1]; exact hn
    have hparC : (getNode (cloneNodeM f st n true).1 n).parent = some (some par) := by
      rw [hgn]; exact hpar
    obtain ⟨t1, t2, t3, t4, t5, t6, t7, t8, t9, t10, t11⟩ :=
      cloneNodeM_spec f (cloneNodeM f st n true).1 par
    have herr : (elemRemove f st n).2 = none := by
      unfold elemRemove
      rw [if_neg hcond]
      simp only [hparC]
    have hnot : (elemRemove f st n).1.notifications =
        st.notifications ++ [(par, (cloneNodeM f st n true).1.nextId), (n, st.nextId)] := by
      unfold elemRemove
      rw [if_neg hcond]
      simp only [hparC]
      show (elemRemoveChild f (cloneNodeM f st n true).1 par n).notifications ++
        [(n, st.nextId)] = _
      rw [show (elemRemoveChild f (cloneNodeM f st n true).1 par n).notifications =
        (cloneNodeM f (cloneNodeM f st n true).1 par true).1.notifications ++
          [(par, (cloneNodeM f st n true).1.nextId)] from rfl]
      rw [t3, s3]
      simp
    have hlk : ∀ i, st.nextId ≤ i → i < (cloneNodeM f st n true).1.nextId →
        hLookup (elemRemove f st n).1.nodes i =
        hLookup (cloneNodeM f st n true).1.nodes i := by
      intro i hi1 hi2
      unfold elemRemove
      rw [if_neg hcond]
      simp only [hparC]
      show hLookup (hSet (hSet
        (cloneNodeM f (cloneNodeM f st n true).1 par true).1.nodes par _) n _) i = _
      rw [hLookup_hSet_ne _ _ (by omega), hLookup_hSet_ne _ _ (by omega)]
      exact t5 i hi2
    have hrmv : (getNode (elemRemove f st n).1 n).isRemoved = true := by
      unfold elemRemove
      rw [if_neg hcond]
      simp only [hparC]
      show (getNode (setNode (setNode
        (cloneNodeM f (cloneNodeM f st n true).1 par true).1 par _) n _) n).isRemoved = true
      rw [getNode_setNode_self]
    exact ⟨herr, ⟨(cloneNodeM f st n true).1.nextId, hnot⟩,
      @snapshot_aval f st n (elemRemove f st n).1 hwf hlk,
      @snapshot_attrsId f st n (elemRemove f st n).1 (hlk st.nextId (le_refl _) s4), hrmv⟩
  · -- remove, never-attached branch
    intro f st n hwf hn hpar
    obtain ⟨s1, s2, s3, s4, s5, s6, s7, s8, s9, s10, s11⟩ := cloneNodeM_spec f st n
    have hnlt : n < st.nextId := wfN_lt hwf
    have hgn : getNode (cloneNodeM f st n true).1 n = getNode st n := getNode_congr (s5 n hnlt)
    have hcond : n ∉ (cloneNodeM f st n true).1.directChildren := by
      rw [s1]; exact hn
    rcases hpar with hp | hp
    all_goals {
      first
      | (have hparC : (getNode (cloneNodeM f st n true).1 n).parent = none := by
          rw [hgn]; exact hp)
      | (have hparC : (getNode (cloneNodeM f st n true).1 n).parent = some none := by
          rw [hgn]; exact hp)
      have herr : (elemRemove f st n).2 = none := by
        unfold elemRemove
        rw [if_neg hcond]
        simp only [hparC]
      have hnot : (elemRemove f st n).1.notifications =
          st.notifications ++ [(n, st.nextId)] := by
        unfold elemRemove
        rw [if_neg hcond]
        simp only [hparC]
        show (cloneNodeM f st n true).1.notifications ++ [(n, st.nextId)] = _
        rw [s3]
      have hlk : ∀ i, st.nextId ≤ i → i < (cloneNodeM f st n true).1.nextId →
          hLookup (elemRemove f st n).1.nodes i =
          hLookup (cloneNodeM f st n true).1.nodes i := by
        intro i hi1 hi2
        unfold elemRemove
        rw [if_neg hcond]
        simp only [hparC]
        show hLookup (hSet (cloneNodeM f st n true).1.nodes n _) i = _
        rw [hLookup_hSet_ne _ _ (by omega)]
      have hrmv : (getNode (elemRemove f st n).1 n).isRemoved = true := by
        unfold elemRemove
        rw [if_neg hcond]
        simp only [hparC]
        show (getNode (setNode (cloneNodeM f st n true).1 n _) n).isRemoved = true
        rw [getNode_setNode_self]
      exact ⟨herr, hnot, @snapshot_aval f st n (elemRemove f st n).1 hwf hlk,
        @snapshot_attrsId f st n (elemRemove f st n).1 (hlk st.nextId (le_refl _) s4), hrmv⟩
    }
  · -- element removeChild (standalone): one notification, current = parent
    intro f st p c hwf hc
    obtain ⟨s1, s2, s3, s4, s5, s6, s7, s8, s9, s10, s11⟩ := cloneNodeM_spec f st p
    have hplt : p < st.nextId := wfN_lt hwf
    have hnot : (elemRemoveChild f st p c).notifications =
        (cloneNodeM f st p true).1.notifications ++ [(p, st.nextId)] := rfl
    have hlk : ∀ i, st.nextId ≤ i → i < (cloneNodeM f st p true).1.nextId →
        hLookup (elemRemoveChild f st p c).nodes i =
        hLookup (cloneNodeM f st p true).1.nodes i := by
      intro i hi1 hi2
      show hLookup (hSet (hSet (cloneNodeM f st p true).1.nodes p _) c _) i = _
      rw [hLookup_hSet_ne _ _ (by omega), hLookup_hSet_ne _ _ (by omega)]
    have hrmv : (getNode (elemRemoveChild f st p c) c).isRemoved = true := by
      show (getNode (setNode (setNode (cloneNodeM f st p true).1 p _) c _) c).isRemoved = true
      rw [getNode_setNode_self]
    exact ⟨by rw [hnot, s3], @snapshot_aval f st p (elemRemoveChild f st p c) hwf hlk,
      @snapshot_attrsId f st p (elemRemoveChild f st p c) (hlk st.nextId (le_refl _) s4), hrmv⟩
  · -- firstChild setter
    intro f st n c hwf
    obtain ⟨s1, s2, s3, s4, s5, s6, s7, s8, s9, s10, s11⟩ := cloneNodeM_spec f st n
    have hnlt : n < st.nextId := wfN_lt hwf
    have hgn : getNode (cloneNodeM f st n true).1 n = getNode st n := getNode_congr (s5 n hnlt)
    have hnot : (setFirstChild f st n c).notifications =
        (cloneNodeM f st n true).1.notifications ++ [(n, st.nextId)] := rfl
    have hlk : ∀ i, st.nextId ≤ i → i < (cloneNodeM f st n true).1.nextId →
        hLookup (setFirstChild f st n c).nodes i =
        hLookup (cloneNodeM f st n true).1.nodes i := by
      intro i hi1 hi2
      show hLookup (hSet (cloneNodeM f st n true).1.nodes n _) i = _
      rw [hLookup_hSet_ne _ _ (by omega)]
    refine ⟨by rw [hnot, s3], @snapshot_aval f st n (setFirstChild f st n c) hwf hlk,
      @snapshot_attrsId f st n (setFirstChild f st n c) (hlk st.nextId (le_refl _) s4), ?_⟩
    show (getNode (setNode (cloneNodeM f st n true).1 n
        { getNode (cloneNodeM f st n true).1 n with
            children := jsSetAt (getNode (cloneNodeM f st n true).1 n).children 0 c }) n).children
        = jsSetAt (getNode st n).children 0 c
    rw [getNode_setNode_self, hgn]
  · -- lastChild setter
    intro f st n c hwf
    obtain ⟨s1, s2, s3, s4, s5, s6, s7, s8, s9, s10, s11⟩ := cloneNodeM_spec f st n
    have hnlt : n < st.nextId := wfN_lt hwf
    have hgn : getNode (cloneNodeM f st n true).1 n = getNode st n := getNode_congr (s5 n hnlt)
    have hnot : (setLastChild f st n c).notifications =
        (cloneNodeM f st n true).1.notifications ++ [(n, st.nextId)] := rfl
    have hlk : ∀ i, st.nextId ≤ i → i < (cloneNodeM f st n true).1.nextId →
        hLookup (setLastChild f st n c).nodes i =
        hLookup (cloneNodeM f st n true).1.nodes i := by
      intro i hi1 hi2
      show hLookup (hSet (cloneNodeM f st n true).1.nodes n _) i = _
      rw [hLookup_hSet_ne _ _ (by omega)]
    refine ⟨by rw [hnot, s3], @snapshot_aval f st n (setLastChild f st n c) hwf hlk,
      @snapshot_attrsId f st n (setLastChild f st n c) (hlk st.nextId (le_refl _) s4), ?_⟩
    show (getNode (setNode (cloneNodeM f st n true).1 n
        { getNode (cloneNodeM f st n true).1 n with
            children := jsSetAt (getNode (cloneNodeM f st n true).1 n).children
              (((getNode (cloneNodeM f st n true).1 n).children.length : Int) - 1) c })
        n).children = jsSetAt (getNode st n).children
          (((getNode st n).children.length : Int) - 1) c
    rw [getNode_setNode_self, hgn]
  · -- innerText setter
    intro f st n v hwf
    obtain ⟨s1, s2, s3, s4, s5, s6, s7, s8, s9, s10, s11⟩ := cloneNodeM_spec f st n
    have hnlt : n < st.nextId := wfN_lt hwf
    have hgn : getNode (cloneNodeM f st n true).1 n = getNode st n := getNode_congr (s5 n hnlt)
    have hnot : (setInnerText f st n v).notifications =
        (cloneNodeM f st n true).1.notifications ++ [(n, st.nextId)] := rfl
    have hlk : ∀ i, st.nextId ≤ i → i < (cloneNodeM f st n true).1.nextId →
        hLookup (setInnerText f st n v).nodes i =
        hLookup (cloneNodeM f st n true).1.nodes i := by
      intro i hi1 hi2
      show hLookup (hSet (cloneNodeM f st n true).1.nodes n _) i = _
      rw [hLookup_hSet_ne _ _ (by omega)]
    refine ⟨by rw [hnot, s3], @snapshot_aval f st n (setInnerText f st n v) hwf hlk,
      @snapshot_attrsId f st n (setInnerText f st n v) (hlk st.nextId (le_refl _) s4),
      ?_, ?_⟩
    · rw [getNode_congr (hlk st.nextId (le_refl _) s4)]
      exact s10
    · show (getNode (setNode (cloneNodeM f st n true).1 n
        { getNode (cloneNodeM f st n true).1 n with text := v }) n).text = v
      rw [getNode_setNode_self]
  · -- textContent delegates to innerText
    intro f st n v
    rfl

/-- C1, witness: the `setAttribute` clause instantiated on the concrete
`button` fixture — exactly one notification with snapshot id `fixBtn.nextId`,
post-state visible on the node, and the aliasing visible on the snapshot —
and the element `removeChild` clause instantiated on the parent/child
fixture: exactly one notification with the parent as `current`. -/
theorem claim1_witness :
    wfN 9 fixBtn 0 = true ∧
    (setAttributeM 8 fixBtn 0 ("a") ("1")).notifications =
      fixBtn.notifications ++ [(0, fixBtn.nextId)] ∧
    getAttributeM (setAttributeM 8 fixBtn 0 ("a") ("1")) 0 ("a") = some ("1") ∧
    getAttributeM (setAttributeM 8 fixBtn 0 ("a") ("1")) fixBtn.nextId ("a") = some ("1") ∧
    wfN 9 fixPC 0 = true ∧ 1 < fixPC.nextId ∧
    (elemRemoveChild 8 fixPC 0 1).notifications =
      fixPC.notifications ++ [(0, fixPC.nextId)] ∧
    (getNode (elemRemoveChild 8 fixPC 0 1) 1).isRemoved = true :=
  ⟨by decide,
    (claim1_mutation_notifications.1 8 fixBtn 0 ("a") ("1") (by decide)).1,
    (claim1_mutation_notifications.1 8 fixBtn 0 ("a") ("1") (by decide)).2.2.2.1,
    (claim1_mutation_notifications.1 8 fixBtn 0 ("a") ("1") (by decide)).2.2.2.2,
    by decide, by decide,
    (claim1_mutation_notifications.2.2.2.2.2.2.2.2.2.2.1 8 fixPC 0 1
      (by decide) (by decide)).1,
    (claim1_mutation_notifications.2.2.2.2.2.2.2.2.2.2.1 8 fixPC 0 1
      (by decide) (by decide)).2.2.2⟩

end VDom
